/-
A verification development for the learnd enrichment pipeline.

Go strings are byte sequences; we embed them as `List Nat` (each entry a
byte value 0..255) so that Go's index- and length-based string code can be
translated literally.  `bs` converts a Lean string literal to its UTF-8
bytes.  Functions translated from the Go standard library are marked with
the library function they model.
-/
import Mathlib

set_option autoImplicit false
set_option maxRecDepth 4096

namespace Learnd

/-- Byte strings: the embedding of Go `string`. -/
abbrev Bytes := List Nat

/-- UTF-8 encoding of a single Unicode code point. -/
def utf8EncodeChar (c : Nat) : List Nat :=
  if c < 0x80 then [c]
  else if c < 0x800 then [0xC0 + c / 0x40, 0x80 + c % 0x40]
  else if c < 0x10000 then
    [0xE0 + c / 0x1000, 0x80 + (c / 0x40) % 0x40, 0x80 + c % 0x40]
  else
    [0xF0 + c / 0x40000, 0x80 + (c / 0x1000) % 0x40,
     0x80 + (c / 0x40) % 0x40, 0x80 + c % 0x40]

/-- UTF-8 bytes of a Lean string literal (Go source literals are UTF-8). -/
def bs (s : String) : Bytes :=
  s.data.foldr (fun c r => utf8EncodeChar c.toNat ++ r) []

/-- ASCII lowercase of one byte (models `strings.ToLower` on ASCII data). -/
def lowerByte (c : Nat) : Nat :=
  if 65 ≤ c ∧ c ≤ 90 then c + 32 else c

/-- Models `strings.ToLower`, restricted to ASCII letters (the inputs the
repository lowercases are schemes and host names). -/
def asciiLower (s : Bytes) : Bytes := s.map lowerByte

/-- ASCII whitespace, the ASCII fragment of Go's `unicode.IsSpace`. -/
def isSpaceByte (c : Nat) : Bool :=
  c = 32 ∨ c = 9 ∨ c = 10 ∨ c = 11 ∨ c = 12 ∨ c = 13

/-- Models `strings.TrimSpace`, restricted to ASCII whitespace. -/
def trimSpace (s : Bytes) : Bytes :=
  (s.dropWhile isSpaceByte).reverse.dropWhile isSpaceByte |>.reverse

/-- Models `strings.HasPrefix`. -/
def startsWithB (s pre : Bytes) : Bool := pre.isPrefixOf s

/-- Models `strings.HasSuffix`. -/
def endsWithB (s suf : Bytes) : Bool := suf.isSuffixOf s

/-- Models `strings.LastIndex`: the greatest index at which `sub` occurs
as a contiguous substring of `s`, and `-1` when there is none. -/
def lastIndexOfSub (s sub : Bytes) : Int :=
  match ((List.range (s.length + 1)).filter
      (fun i => sub.isPrefixOf (s.drop i))).getLast? with
  | some i => (i : Int)
  | none => -1

/-- Models `strings.Index`: least index of `sub` in `s`, `-1` if absent. -/
def indexOfSub (s sub : Bytes) : Int :=
  match ((List.range (s.length + 1)).filter
      (fun i => sub.isPrefixOf (s.drop i))).head? with
  | some i => (i : Int)
  | none => -1

/-- Models `strings.IndexByte` / the first position of byte `c`. -/
def indexOfByte (s : Bytes) (c : Nat) : Int :=
  match s.indexOf? c with
  | some i => (i : Int)
  | none => -1

/-- Models `strings.LastIndexByte`. -/
def lastIndexOfByte (s : Bytes) (c : Nat) : Int :=
  match s.reverse.indexOf? c with
  | some i => ((s.length - 1 - i : Nat) : Int)
  | none => -1

/-- Models `strings.Contains`. -/
def containsSub (s sub : Bytes) : Bool := indexOfSub s sub ≥ 0

/-- Models `strings.Cut`: split at the first occurrence of `sep`. -/
def cutAt (s sep : Bytes) : Bytes × Bytes × Bool :=
  let i := indexOfSub s sep
  if i ≥ 0 then (s.take i.toNat, s.drop (i.toNat + sep.length), true)
  else (s, [], false)

namespace enricher

/-- From `youtube.go`: `truncateDescription` limits description length for
storage.  Translated from

    if len(desc) > 500 {
      if idx := strings.LastIndex(desc[:500], ". "); idx > 200 {
        return desc[:idx+1]
      }
      return desc[:500] + "..."
    }
    return desc
-/
def truncateDescription (desc : Bytes) : Bytes :=
  if desc.length > 500 then
    let idx := lastIndexOfSub (desc.take 500) (bs ". ")
    if idx > 200 then desc.take (idx.toNat + 1)
    else desc.take 500 ++ bs "..."
  else desc

end enricher

namespace url

/-- The escaping contexts of Go `net/url` (type `encoding` there). -/
inductive Encoding
  | path
  | pathSegment
  | host
  | zone
  | userPassword
  | queryComponent
  | fragment
  deriving DecidableEq, Repr

/-- ASCII letter or digit. -/
def isAlphaNumByte (c : Nat) : Bool :=
  (97 ≤ c ∧ c ≤ 122) ∨ (65 ≤ c ∧ c ≤ 90) ∨ (48 ≤ c ∧ c ≤ 57)

/-- Models `net/url.shouldEscape`. -/
def shouldEscape (c : Nat) (mode : Encoding) : Bool :=
  if isAlphaNumByte c then false
  else if (mode = .host ∨ mode = .zone) ∧
      c ∈ ([33, 36, 38, 39, 40, 41, 42, 43, 44, 59, 61, 58, 91, 93, 60, 62, 34] : List Nat)
  then false
  else if c ∈ ([45, 95, 46, 126] : List Nat) then false
  else if c ∈ ([36, 38, 43, 44, 47, 58, 59, 61, 63, 64] : List Nat) then
    match mode with
    | .path => c = 63
    | .pathSegment => c = 47 ∨ c = 59 ∨ c = 44 ∨ c = 63
    | .userPassword => c = 64 ∨ c = 47 ∨ c = 63 ∨ c = 58
    | .queryComponent => true
    | .fragment => false
    | _ => true
  else if mode = .fragment ∧ c ∈ ([33, 40, 41, 42] : List Nat) then false
  else true

/-- Uppercase hex digit, as Go's `upperhex` table. -/
def hexUpperDigit (n : Nat) : Nat :=
  if n < 10 then 48 + n else 65 + (n - 10)

/-- Escape one byte in the given mode (a space becomes `+` in query mode). -/
def escapeByte (c : Nat) (mode : Encoding) : Bytes :=
  if c = 32 ∧ mode = .queryComponent then [43]
  else if shouldEscape c mode then [37, hexUpperDigit (c / 16), hexUpperDigit (c % 16)]
  else [c]

/-- Models `net/url.escape`. -/
def escape (s : Bytes) (mode : Encoding) : Bytes :=
  s.foldr (fun c r => escapeByte c mode ++ r) []

/-- Hex digit test, as Go's `ishex`. -/
def ishex (c : Nat) : Bool :=
  (48 ≤ c ∧ c ≤ 57) ∨ (97 ≤ c ∧ c ≤ 102) ∨ (65 ≤ c ∧ c ≤ 70)

/-- Hex digit value, as Go's `unhex`. -/
def unhex (c : Nat) : Nat :=
  if 48 ≤ c ∧ c ≤ 57 then c - 48
  else if 97 ≤ c ∧ c ≤ 102 then c - 97 + 10
  else if 65 ≤ c ∧ c ≤ 70 then c - 65 + 10
  else 0

/-- Models `net/url.unescape` (validation and decoding in one pass;
`%25` is bytes `37, 50, 53`). -/
def unescape : Bytes → Encoding → Except String Bytes
  | [], _ => .ok []
  | 37 :: h1 :: h2 :: rest, mode =>
    if ishex h1 ∧ ishex h2 then
      let v := unhex h1 * 16 + unhex h2
      if mode = .host ∧ unhex h1 < 8 ∧ ¬(h1 = 50 ∧ h2 = 53) then
        .error "invalid URL escape in host"
      else if mode = .zone ∧ ¬(h1 = 50 ∧ h2 = 53) ∧ v ≠ 32 ∧ shouldEscape v .host then
        .error "invalid character in host zone"
      else do
        let r ← unescape rest mode
        .ok (v :: r)
    else .error "invalid URL escape"
  | 37 :: _, _ => .error "invalid URL escape"
  | 43 :: rest, mode => do
    let r ← unescape rest mode
    .ok ((if mode = .queryComponent then 32 else 43) :: r)
  | c :: rest, mode =>
    if (mode = .host ∨ mode = .zone) ∧ c < 128 ∧ shouldEscape c mode then
      .error "invalid character in host name"
    else do
      let r ← unescape rest mode
      .ok (c :: r)

/-- Models `net/url.Userinfo` (`password = none` means password unset). -/
structure Userinfo where
  username : Bytes
  password : Option Bytes
  deriving DecidableEq, Repr

/-- Models `net/url.URL`. -/
structure URL where
  scheme : Bytes := []
  opaquePart : Bytes := []
  user : Option Userinfo := none
  host : Bytes := []
  path : Bytes := []
  rawPath : Bytes := []
  omitHost : Bool := false
  forceQuery : Bool := false
  rawQuery : Bytes := []
  fragment : Bytes := []
  rawFragment : Bytes := []
  deriving DecidableEq, Repr

/-- Models `net/url.getScheme` (the loop body; `i` counts consumed bytes). -/
def getSchemeGo (orig : Bytes) : Bytes → Nat → Except String (Bytes × Bytes)
  | [], _ => .ok ([], orig)
  | c :: rest, i =>
    if (97 ≤ c ∧ c ≤ 122) ∨ (65 ≤ c ∧ c ≤ 90) then getSchemeGo orig rest (i + 1)
    else if (48 ≤ c ∧ c ≤ 57) ∨ c = 43 ∨ c = 45 ∨ c = 46 then
      if i = 0 then .ok ([], orig) else getSchemeGo orig rest (i + 1)
    else if c = 58 then
      if i = 0 then .error "missing protocol scheme"
      else .ok (orig.take i, orig.drop (i + 1))
    else .ok ([], orig)

/-- Models `net/url.getScheme`. -/
def getScheme (rawURL : Bytes) : Except String (Bytes × Bytes) :=
  getSchemeGo rawURL rawURL 0

/-- Models `net/url.split`. -/
def splitByte (s : Bytes) (sep : Nat) (cutc : Bool) : Bytes × Bytes :=
  let i := indexOfByte s sep
  if i < 0 then (s, [])
  else if cutc then (s.take i.toNat, s.drop (i.toNat + 1))
  else (s.take i.toNat, s.drop i.toNat)

/-- Models `net/url.validOptionalPort`: empty, or `:` followed by digits. -/
def validOptionalPort (port : Bytes) : Bool :=
  match port with
  | [] => true
  | 58 :: digits => digits.all (fun b => 48 ≤ b ∧ b ≤ 57)
  | _ => false

/-- Models `net/url.validUserinfo`. -/
def validUserinfo (s : Bytes) : Bool :=
  s.all fun c =>
    isAlphaNumByte c ∨
    c ∈ ([45, 46, 95, 58, 126, 33, 36, 38, 39, 40, 41, 42, 43, 44, 59, 61, 37, 64] : List Nat)

/-- Models `net/url.parseHost` (`[` = 91, `]` = 93, `:` = 58). -/
def parseHost (host : Bytes) : Except String Bytes :=
  if startsWithB host (bs "[") then
    let i := lastIndexOfSub host (bs "]")
    if i < 0 then .error "missing right bracket in host"
    else
      let n := i.toNat
      let colonPort := host.drop (n + 1)
      if ¬ validOptionalPort colonPort then .error "invalid port after host"
      else
        let zone := indexOfSub (host.take n) (bs "%25")
        if zone ≥ 0 then do
          let host1 ← unescape (host.take zone.toNat) .host
          let host2 ← unescape ((host.take n).drop zone.toNat) .zone
          let host3 ← unescape (host.drop n) .host
          .ok (host1 ++ host2 ++ host3)
        else unescape host .host
  else
    let i := lastIndexOfByte host 58
    if i ≥ 0 ∧ ¬ validOptionalPort (host.drop i.toNat) then .error "invalid port after host"
    else unescape host .host

/-- Models `net/url.parseAuthority` (`@` = 64, `:` = 58). -/
def parseAuthority (authority : Bytes) : Except String (Option Userinfo × Bytes) :=
  let i := lastIndexOfByte authority 64
  if i < 0 then do
    let host ← parseHost authority
    .ok (none, host)
  else do
    let host ← parseHost (authority.drop (i.toNat + 1))
    let userinfo := authority.take i.toNat
    if ¬ validUserinfo userinfo then .error "net/url: invalid userinfo"
    else if ¬ containsSub userinfo (bs ":") then do
      let u ← unescape userinfo .userPassword
      .ok (some ⟨u, none⟩, host)
    else do
      let (username, password, _) := cutAt userinfo (bs ":")
      let un ← unescape username .userPassword
      let pw ← unescape password .userPassword
      .ok (some ⟨un, some pw⟩, host)

/-- Models `(*URL).setPath`. -/
def setPath (u : URL) (p : Bytes) : Except String URL := do
  let path ← unescape p .path
  let rawPath := if escape path .path = p then [] else p
  .ok { u with path := path, rawPath := rawPath }

/-- Models `(*URL).setFragment`. -/
def setFragment (u : URL) (f : Bytes) : Except String URL := do
  let frag ← unescape f .fragment
  let rawFragment := if escape frag .fragment = f then [] else f
  .ok { u with fragment := frag, rawFragment := rawFragment }

/-- Models the tail of `net/url.parse` after scheme/query splitting:
authority detection, authority parsing and path setting (`viaRequest`
is `false` throughout, as in `url.Parse`). -/
def parseRest (scheme : Bytes) (forceQuery : Bool) (rawQuery : Bytes) (rest : Bytes) :
    Except String URL :=
  if (scheme ≠ [] ∨ ¬ startsWithB rest (bs "///")) ∧ startsWithB rest (bs "//") then
    let rest2 := rest.drop 2
    let i := indexOfSub rest2 (bs "/")
    let (authority, rest3) :=
      if i ≥ 0 then (rest2.take i.toNat, rest2.drop i.toNat) else (rest2, [])
    (parseAuthority authority).bind fun uh =>
      setPath { scheme := scheme, user := uh.1, host := uh.2,
                forceQuery := forceQuery, rawQuery := rawQuery } rest3
  else
    let omitHost := scheme ≠ [] ∧ startsWithB rest (bs "/")
    setPath { scheme := scheme, omitHost := omitHost,
              forceQuery := forceQuery, rawQuery := rawQuery } rest

/-- Models `net/url.parse` with `viaRequest = false`. -/
def parseMain (rawURL : Bytes) : Except String URL :=
  if rawURL.any (fun c => c < 32 ∨ c = 127) then
    .error "net/url: invalid control character in URL"
  else if rawURL = bs "*" then .ok { path := bs "*" }
  else
    (getScheme rawURL).bind fun sr =>
      let scheme := asciiLower sr.1
      let rest0 := sr.2
      let (rest, rawQuery, forceQuery) :=
        if endsWithB rest0 (bs "?") ∧ ¬ containsSub (rest0.take (rest0.length - 1)) (bs "?") then
          (rest0.take (rest0.length - 1), ([] : Bytes), true)
        else
          let p := splitByte rest0 63 true
          (p.1, p.2, false)
      if ¬ startsWithB rest (bs "/") then
        if scheme ≠ [] then
          .ok { scheme := scheme, opaquePart := rest,
                forceQuery := forceQuery, rawQuery := rawQuery }
        else
          let (segment, _, _) := cutAt rest (bs "/")
          if containsSub segment (bs ":") then
            .error "first path segment in URL cannot contain colon"
          else parseRest scheme forceQuery rawQuery rest
      else parseRest scheme forceQuery rawQuery rest

/-- Models `net/url.Parse` (`#` = 35). -/
def Parse (rawURL : Bytes) : Except String URL :=
  let (u, frag) := splitByte rawURL 35 true
  (parseMain u).bind fun uu =>
    if frag = [] then .ok uu
    else setFragment uu frag

/-- Models `net/url.splitHostPort` (used by `Hostname`/`Port`). -/
def splitHostPort (hostPort : Bytes) : Bytes × Bytes :=
  let colon := lastIndexOfByte hostPort 58
  let hp :=
    if colon ≥ 0 ∧ validOptionalPort (hostPort.drop colon.toNat) then
      (hostPort.take colon.toNat, hostPort.drop (colon.toNat + 1))
    else (hostPort, [])
  if startsWithB hp.1 (bs "[") ∧ endsWithB hp.1 (bs "]") then
    ((hp.1.drop 1).take (hp.1.length - 2), hp.2)
  else hp

/-- Models `(*URL).Hostname`. -/
def URL.hostname (u : URL) : Bytes := (splitHostPort u.host).1

/-- Models `(*URL).Port`. -/
def URL.port (u : URL) : Bytes := (splitHostPort u.host).2

/-- Models `net/url.validEncoded`. -/
def validEncoded (s : Bytes) (mode : Encoding) : Bool :=
  s.all fun c =>
    if c ∈ ([33, 36, 38, 39, 40, 41, 42, 43, 44, 59, 61, 58, 64, 91, 93, 37] : List Nat) then true
    else ¬ shouldEscape c mode

/-- Models `(*URL).EscapedPath`. -/
def URL.escapedPath (u : URL) : Bytes :=
  let keep : Bool := !u.rawPath.isEmpty && validEncoded u.rawPath .path &&
    (match unescape u.rawPath .path with
     | .ok p => p == u.path
     | .error _ => false)
  if keep then u.rawPath
  else if u.path = bs "*" then bs "*"
  else escape u.path .path

/-- Models `(*URL).EscapedFragment`. -/
def URL.escapedFragment (u : URL) : Bytes :=
  let keep : Bool := !u.rawFragment.isEmpty && validEncoded u.rawFragment .fragment &&
    (match unescape u.rawFragment .fragment with
     | .ok f => f == u.fragment
     | .error _ => false)
  if keep then u.rawFragment
  else escape u.fragment .fragment

/-- Models `(*Userinfo).String`. -/
def Userinfo.render (ui : Userinfo) : Bytes :=
  escape ui.username .userPassword ++
    (match ui.password with
     | some pw => bs ":" ++ escape pw .userPassword
     | none => [])

/-- Models `(*URL).String` (`/` = 47). -/
def URL.render (u : URL) : Bytes :=
  let buf0 := if u.scheme ≠ [] then u.scheme ++ bs ":" else []
  let buf1 :=
    if u.opaquePart ≠ [] then buf0 ++ u.opaquePart
    else
      let b :=
        if u.scheme ≠ [] ∨ u.host ≠ [] ∨ u.user.isSome then
          if u.omitHost ∧ u.host = [] ∧ u.user.isNone then buf0
          else
            let b1 := if u.host ≠ [] ∨ u.path ≠ [] ∨ u.user.isSome then buf0 ++ bs "//" else buf0
            let b2 :=
              match u.user with
              | some ui => b1 ++ ui.render ++ bs "@"
              | none => b1
            if u.host ≠ [] then b2 ++ escape u.host .host else b2
        else buf0
      let path := u.escapedPath
      let b := if path ≠ [] ∧ path.head? ≠ some 47 ∧ u.host ≠ [] then b ++ bs "/" else b
      let b :=
        if b = [] then
          let (segment, _, _) := cutAt path (bs "/")
          if containsSub segment (bs ":") then b ++ bs "./" else b
        else b
      b ++ path
  let buf2 := if u.forceQuery ∨ u.rawQuery ≠ [] then buf1 ++ bs "?" ++ u.rawQuery else buf1
  if u.fragment ≠ [] then buf2 ++ bs "#" ++ u.escapedFragment else buf2

/-- Models `url.Values` as an association list in key-insertion order
(values keep their append order, keys are unique). -/
abbrev Values := List (Bytes × List Bytes)

/-- Appends a value under a key, as `m[key] = append(m[key], value)`. -/
def valuesAdd (m : Values) (k v : Bytes) : Values :=
  match m with
  | [] => [(k, [v])]
  | kv :: rest => if kv.1 = k then (kv.1, kv.2 ++ [v]) :: rest else kv :: valuesAdd rest k v

/-- Models `(*URL).Query`: `ParseQuery` with the error discarded — pairs
with a semicolon, empty keys and bad escapes are skipped (`&` = 38,
`;` is checked as a substring, `=` splits key from value). -/
def parseQueryIgnoreErr (query : Bytes) : Values :=
  (query.splitOn 38).foldl
    (fun m key0 =>
      if containsSub key0 (bs ";") then m
      else if key0 = [] then m
      else
        let (k, v, _) := cutAt key0 (bs "=")
        match unescape k .queryComponent, unescape v .queryComponent with
        | .ok k2, .ok v2 => valuesAdd m k2 v2
        | _, _ => m)
    []

/-- Byte-wise lexicographic order on byte strings (Go string `<`). -/
def bytesLT : Bytes → Bytes → Bool
  | [], [] => false
  | [], _ :: _ => true
  | _ :: _, [] => false
  | a :: as, b :: bs => if a < b then true else if b < a then false else bytesLT as bs

/-- Insertion into a sorted key list. -/
def insertSorted (k : Bytes) : List Bytes → List Bytes
  | [] => [k]
  | x :: xs => if bytesLT k x then k :: x :: xs else x :: insertSorted k xs

/-- Sorts keys ascending, modelling `slices.Sort` in `Values.Encode`. -/
def sortKeys (ks : List Bytes) : List Bytes := ks.foldr insertSorted []

/-- Models `QueryEscape`. -/
def queryEscape (s : Bytes) : Bytes := escape s .queryComponent

/-- Lookup of a key's value list. -/
def valuesGet (m : Values) (k : Bytes) : List Bytes :=
  match m.find? (fun kv => kv.1 = k) with
  | some kv => kv.2
  | none => []

/-- Models `Values.Encode`: keys sorted, each pair `key=value` escaped
and joined with `&`. -/
def encodeValues (m : Values) : Bytes :=
  if m = [] then []
  else
    (sortKeys (m.map (·.1))).foldl
      (fun buf k =>
        let keyEscaped := queryEscape k
        (valuesGet m k).foldl
          (fun buf v =>
            (if buf ≠ [] then buf ++ bs "&" else buf) ++ keyEscaped ++ bs "=" ++ queryEscape v)
          buf)
      []

end url

namespace urlutil

/-- The tracking-parameter deny list from `internal/urlutil/normalize.go`. -/
def trackingParams : List Bytes :=
  [bs "fbclid", bs "gclid", bs "mc_cid", bs "mc_eid", bs "ref", bs "ref_src",
   bs "utm_campaign", bs "utm_content", bs "utm_id", bs "utm_medium", bs "utm_source",
   bs "utm_term", bs "utm_reader", bs "utm_name", bs "utm_referrer", bs "utm_social",
   bs "utm_social_type"]

/-- Membership in the deny list. -/
def isTrackingParam (k : Bytes) : Bool := trackingParams.contains k

/-- Models `net.JoinHostPort`: brackets are added when the host contains
a colon. -/
def joinHostPort (host port : Bytes) : Bytes :=
  if host.contains 58 then bs "[" ++ host ++ bs "]:" ++ port
  else host ++ bs ":" ++ port

/-- The path rewrite of `NormalizeURL`: a non-root path loses all its
trailing slashes (`strings.TrimRight(path, "/")`), and a path emptied by
the trim becomes `/` (47 is `/`). -/
def normalizePath (p : Bytes) : Bytes :=
  if p ≠ bs "/" then
    let q := (p.reverse.dropWhile (· = 47)).reverse
    if q = [] then bs "/" else q
  else p

/-- From `internal/urlutil/normalize.go`: `NormalizeURL` normalizes a URL
for duplicate detection.  Translated line by line from the source
(trim, parse, require scheme and host, lowercase scheme and hostname,
drop default ports, clear the fragment, trim trailing slashes from
non-root paths, clear `RawPath`, drop tracking query parameters,
re-encode the query, render). -/
def NormalizeURL (raw : Bytes) : Except String Bytes :=
  let trimmed := trimSpace raw
  if trimmed = [] then .error "empty url"
  else
    match url.Parse trimmed with
    | .error _ => .error "invalid url: parse"
    | .ok parsed0 =>
      if parsed0.scheme = [] ∨ parsed0.host = [] then .error "invalid url"
      else
        let parsed1 := { parsed0 with scheme := asciiLower parsed0.scheme }
        let host := asciiLower parsed1.hostname
        let port0 := parsed1.port
        let port := if (parsed1.scheme = bs "http" ∧ port0 = bs "80") ∨
            (parsed1.scheme = bs "https" ∧ port0 = bs "443") then [] else port0
        let parsed2 := { parsed1 with
          host := if port ≠ [] then joinHostPort host port else host }
        let parsed3 := { parsed2 with fragment := [] }
        let parsed4 := { parsed3 with path := normalizePath parsed3.path }
        let parsed5 := { parsed4 with rawPath := [] }
        let query0 := url.parseQueryIgnoreErr parsed5.rawQuery
        let query := query0.filter (fun kv => ¬ isTrackingParam (asciiLower kv.1))
        let parsed6 := { parsed5 with rawQuery := url.encodeValues query }
        .ok parsed6.render

end urlutil

namespace net

/-- Models `net.IP`: either a 4-byte address, or a 16-byte address as a
byte list.  `netip.Addr.As16` stores parsed IPv4 addresses 4-mapped, and
`net.IP` methods recover them through `To4`; the `v4` constructor plays
that role directly. -/
inductive IP
  | v4 (a b c d : Nat)
  | v6 (bytes : List Nat)
  deriving DecidableEq, Repr

/-- Models `net.IP.To4` (a 16-byte address maps to 4 bytes exactly when
it has the `::ffff:0:0/96` shape). -/
def IP.to4 : IP → Option (Nat × Nat × Nat × Nat)
  | .v4 a b c d => some (a, b, c, d)
  | .v6 bytes =>
    match bytes with
    | [0, 0, 0, 0, 0, 0, 0, 0, 0, 0, 255, 255, a, b, c, d] => some (a, b, c, d)
    | _ => none

/-- Models `net.IP.IsLoopback`. -/
def IP.isLoopback (ip : IP) : Bool :=
  match ip.to4 with
  | some (a, _, _, _) => a = 127
  | none =>
    match ip with
    | .v6 bytes => bytes = [0, 0, 0, 0, 0, 0, 0, 0, 0, 0, 0, 0, 0, 0, 0, 1]
    | .v4 _ _ _ _ => false

/-- Models `net.IP.IsPrivate` (RFC 1918 for IPv4, `fc00::/7` for IPv6). -/
def IP.isPrivate (ip : IP) : Bool :=
  match ip.to4 with
  | some (a, b, _, _) => a = 10 ∨ (a = 172 ∧ b &&& 0xf0 = 16) ∨ (a = 192 ∧ b = 168)
  | none =>
    match ip with
    | .v6 bytes => bytes.length = 16 ∧ bytes.headD 0 &&& 0xfe = 0xfc
    | .v4 _ _ _ _ => false

/-- Models `net.IP.IsLinkLocalUnicast`. -/
def IP.isLinkLocalUnicast (ip : IP) : Bool :=
  match ip.to4 with
  | some (a, b, _, _) => a = 169 ∧ b = 254
  | none =>
    match ip with
    | .v6 bytes => bytes.length = 16 ∧ bytes.headD 0 = 0xfe ∧ (bytes.getD 1 0) &&& 0xc0 = 0x80
    | .v4 _ _ _ _ => false

/-- Models `net.IP.IsLinkLocalMulticast`. -/
def IP.isLinkLocalMulticast (ip : IP) : Bool :=
  match ip.to4 with
  | some (a, b, c, _) => a = 224 ∧ b = 0 ∧ c = 0
  | none =>
    match ip with
    | .v6 bytes => bytes.length = 16 ∧ bytes.headD 0 = 0xff ∧ (bytes.getD 1 0) &&& 0x0f = 0x02
    | .v4 _ _ _ _ => false

/-- Models `net.IP.IsMulticast`. -/
def IP.isMulticast (ip : IP) : Bool :=
  match ip.to4 with
  | some (a, _, _, _) => a &&& 0xf0 = 0xe0
  | none =>
    match ip with
    | .v6 bytes => bytes.length = 16 ∧ bytes.headD 0 = 0xff
    | .v4 _ _ _ _ => false

/-- Models `net.IP.IsUnspecified` (all-zero v4 or v6 address). -/
def IP.isUnspecified (ip : IP) : Bool :=
  decide (ip.to4 = some (0, 0, 0, 0)) ||
  (match ip with
   | .v6 bytes => decide (bytes = List.replicate 16 0)
   | .v4 _ _ _ _ => false)

/-- Models `netip.parseIPv4`'s field loop: `val`/`digLen` accumulate the
current decimal field, `fields` the completed ones (`.` = 46). -/
def parseIPv4Go : Bytes → Nat → Nat → List Nat → Option (Nat × Nat × Nat × Nat)
  | [], val, _, fields =>
    if fields.length < 3 then none
    else
      match fields with
      | [a, b, c] => some (a, b, c, val)
      | _ => none
  | c :: rest, val, digLen, fields =>
    if 48 ≤ c ∧ c ≤ 57 then
      if digLen = 1 ∧ val = 0 then none
      else
        let val2 := val * 10 + (c - 48)
        if val2 > 255 then none
        else parseIPv4Go rest val2 (digLen + 1) fields
    else if c = 46 then
      if digLen = 0 ∨ rest = [] then none
      else if fields.length = 3 then none
      else parseIPv4Go rest 0 0 (fields ++ [val])
    else none

/-- Models `netip.parseIPv4`. -/
def parseIPv4 (s : Bytes) : Option IP :=
  match parseIPv4Go s 0 0 [] with
  | some (a, b, c, d) => some (.v4 a b c d)
  | none => none

/-- One hex group of `netip.parseIPv6`: consumes up to four hex digits,
failing on a fifth; returns the accumulated value, the digit count and
the remaining input. -/
def takeHexGroup : Bytes → Nat → Nat → Option (Nat × Nat × Bytes)
  | [], acc, off => some (acc, off, [])
  | c :: rest, acc, off =>
    if url.ishex c then
      if off > 3 then none
      else takeHexGroup rest (acc * 16 + url.unhex c) (off + 1)
    else some (acc, off, c :: rest)

/-- The post-loop checks of `netip.parseIPv6`: the input must be consumed,
and a short address needs an ellipsis expanded with zero bytes (an
ellipsis in a full address is an error). -/
def finishIPv6 (s : Bytes) (ip : List Nat) (ellipsis : Option Nat) : Option (List Nat) :=
  if s ≠ [] then none
  else if ip.length < 16 then
    match ellipsis with
    | none => none
    | some e => some (ip.take e ++ List.replicate (16 - ip.length) 0 ++ ip.drop e)
  else if ellipsis.isSome then none
  else some ip

/-- The main loop of `netip.parseIPv6`: hex groups separated by `:` (58),
`::` recorded as the ellipsis position, an embedded IPv4 address in the
last four bytes, a `%` zone rejected (as `net.ParseIP` rejects zones).
The fuel bounds the iteration count (each step stores two bytes). -/
def parseIPv6Go : Nat → Bytes → List Nat → Option Nat → Option (List Nat)
  | 0, _, _, _ => none
  | fuel + 1, s, ip, ellipsis =>
    if ip.length ≥ 16 then finishIPv6 s ip ellipsis
    else
      match takeHexGroup s 0 0 with
      | none => none
      | some (acc, off, rest) =>
        if off = 0 then none
        else if (match rest with | 46 :: _ => true | _ => false) then
          if ellipsis.isNone ∧ ip.length ≠ 12 then none
          else if ip.length + 4 > 16 then none
          else
            match parseIPv4Go s 0 0 [] with
            | none => none
            | some (a, b, c, d) => finishIPv6 [] (ip ++ [a, b, c, d]) ellipsis
        else
          let ip2 := ip ++ [acc / 256, acc % 256]
          match rest with
          | [] => finishIPv6 [] ip2 ellipsis
          | 58 :: rest2 =>
            match rest2 with
            | [] => none
            | 58 :: rest3 =>
              if ellipsis.isSome then none
              else if rest3 = [] then finishIPv6 [] ip2 (some ip2.length)
              else parseIPv6Go fuel rest3 ip2 (some ip2.length)
            | _ => parseIPv6Go fuel rest2 ip2 ellipsis
          | _ => none

/-- Models `netip.parseIPv6`. -/
def parseIPv6 (s : Bytes) : Option IP :=
  match s with
  | 58 :: 58 :: rest =>
    if rest = [] then some (.v6 (List.replicate 16 0))
    else
      match parseIPv6Go 9 rest [] (some 0) with
      | some bytes => some (.v6 bytes)
      | none => none
  | _ =>
    match parseIPv6Go 9 s [] none with
    | some bytes => some (.v6 bytes)
    | none => none

/-- The dispatch loop of `netip.ParseAddr`: the first `.` (46), `:` (58)
or `%` (37) decides the format. -/
def parseIPDispatch : Bytes → Bytes → Option IP
  | [], _ => none
  | 46 :: _, orig => parseIPv4 orig
  | 58 :: _, orig => parseIPv6 orig
  | 37 :: _, _ => none
  | _ :: rest, orig => parseIPDispatch rest orig

/-- Models `net.ParseIP` (zoned addresses are rejected). -/
def ParseIP (s : Bytes) : Option IP := parseIPDispatch s s

end net

namespace enricher

/-- From `web_safety.go`: `isLocalhost`. -/
def isLocalhost (host : Bytes) : Bool :=
  let h := asciiLower (trimSpace host)
  h = bs "localhost" ∨ endsWithB h (bs ".localhost")

/-- From `web_safety.go`: `isPrivateIP` (a `nil`/`none` IP counts as
private). -/
def isPrivateIP (ip : Option net.IP) : Bool :=
  match ip with
  | none => true
  | some ip =>
    ip.isLoopback ∨ ip.isPrivate ∨ ip.isLinkLocalUnicast ∨
    ip.isLinkLocalMulticast ∨ ip.isMulticast ∨ ip.isUnspecified

/-- From `web_safety.go`: `validateParsedURL`.  DNS resolution
(`net.DefaultResolver.LookupIPAddr`) is the one external effect; it is
passed in as `resolve`, with `.error` for a failed lookup and `.ok` for
the returned address list.  Everything else is translated line by line
from the source. -/
def validateParsedURL (resolve : Bytes → Except Unit (List net.IP))
    (parsedURL : Option url.URL) : Except String Unit :=
  match parsedURL with
  | none => .error "invalid URL: empty"
  | some u =>
    if u.scheme = [] ∨ u.host = [] then .error "invalid URL: missing scheme or host"
    else if asciiLower u.scheme ≠ bs "http" ∧ asciiLower u.scheme ≠ bs "https" then
      .error "invalid URL: unsupported scheme"
    else if u.user.isSome then .error "invalid URL: userinfo not allowed"
    else if u.hostname = [] then .error "invalid URL: missing host"
    else if isLocalhost u.hostname then .error "invalid URL: host is not allowed"
    else
      match net.ParseIP u.hostname with
      | some ip =>
        if isPrivateIP (some ip) then .error "invalid URL: host resolves to private IP"
        else .ok ()
      | none =>
        match resolve u.hostname with
        | .error _ => .error "invalid URL: failed to resolve host"
        | .ok addrs =>
          if addrs = [] then .error "invalid URL: host has no addresses"
          else if addrs.any (fun a => isPrivateIP (some a)) then
            .error "invalid URL: host resolves to private IP"
          else .ok ()

end enricher

namespace html

/-- Models `golang.org/x/net/html.NodeType` (the kinds the enricher
distinguishes). -/
inductive NodeType
  | errorNode
  | textNode
  | documentNode
  | elementNode
  | commentNode
  | doctypeNode
  deriving DecidableEq, Repr

/-- Models `golang.org/x/net/html.Node`: node type, `Data` (tag name for
elements, text for text nodes) and the child list (the embedding of the
`FirstChild`/`NextSibling` chain). -/
inductive Node
  | mk (ntype : NodeType) (ndata : Bytes) (children : List Node)

/-- Node type projection. -/
def Node.ntype : Node → NodeType
  | .mk t _ _ => t

/-- `Data` projection. -/
def Node.ndata : Node → Bytes
  | .mk _ d _ => d

/-- Child list projection. -/
def Node.children : Node → List Node
  | .mk _ _ c => c

/-- Element node shorthand. -/
def el (tag : String) (children : List Node) : Node := .mk .elementNode (bs tag) children

/-- Text node shorthand. -/
def txt (s : String) : Node := .mk .textNode (bs s) []

mutual

/-- Equality test on nodes. -/
def Node.beq : Node → Node → Bool
  | .mk t1 d1 c1, .mk t2 d2 c2 => t1 = t2 && d1 = d2 && Node.beqList c1 c2

/-- Equality test on node lists. -/
def Node.beqList : List Node → List Node → Bool
  | [], [] => true
  | a :: as, b :: bs => Node.beq a b && Node.beqList as bs
  | _, _ => false

end

end html

namespace enricher

/-- `readingWordsPerMinute` from `web.go`. -/
def readingWordsPerMinute : Nat := 200

/-- Number of fields of `strings.Fields` (maximal runs of non-space
bytes; ASCII whitespace). -/
def fieldsCountGo : Bytes → Bool → Nat
  | [], _ => 0
  | c :: rest, inWord =>
    if isSpaceByte c then fieldsCountGo rest false
    else (if inWord then 0 else 1) + fieldsCountGo rest true

/-- `len(strings.Fields(s))`. -/
def fieldsCount (s : Bytes) : Nat := fieldsCountGo s false

mutual

/-- From `web.go`: `countWordsRecursive`.  Script-like elements return 0
outright; `nav`/`footer`/`aside` set `skip`, which returns 0 before any
child is visited; text nodes count their fields. -/
def countWordsRecursive : html.Node → Bool → Nat
  | .mk t d children, skip =>
    let skip2 :=
      if t = .elementNode ∧ (d = bs "nav" ∨ d = bs "footer" ∨ d = bs "aside") then true else skip
    if t = .elementNode ∧ (d = bs "script" ∨ d = bs "style" ∨ d = bs "noscript" ∨
        d = bs "svg" ∨ d = bs "canvas" ∨ d = bs "head") then 0
    else if skip2 then 0
    else if t = .textNode then fieldsCount d
    else countWordsChildren children skip2

/-- The `for c := n.FirstChild; ...` summation loop of
`countWordsRecursive`. -/
def countWordsChildren : List html.Node → Bool → Nat
  | [], _ => 0
  | c :: cs, skip => countWordsRecursive c skip + countWordsChildren cs skip

end

/-- From `web.go`: `countWords` (a nil node counts 0 words). -/
def countWords (n : Option html.Node) : Nat :=
  match n with
  | none => 0
  | some n => countWordsRecursive n false

/-- The captured variables of `findPrimaryContentNode`'s closure. -/
structure WalkState where
  article : Option html.Node
  mainNode : Option html.Node
  body : Option html.Node

mutual

/-- From `web.go`: the `walk` closure of `findPrimaryContentNode`.
The first `article` and first `main` are kept, `body` is overwritten
on every hit. -/
def walkNode (st : WalkState) (n : html.Node) : WalkState :=
  match n with
  | .mk t d children =>
    let st1 :=
      if t = .elementNode then
        if d = bs "article" then
          if st.article.isNone then { st with article := some (html.Node.mk t d children) } else st
        else if d = bs "main" then
          if st.mainNode.isNone then { st with mainNode := some (html.Node.mk t d children) } else st
        else if d = bs "body" then { st with body := some (html.Node.mk t d children) }
        else st
      else st
    walkChildren st1 children

/-- The child loop of the `walk` closure. -/
def walkChildren (st : WalkState) : List html.Node → WalkState
  | [] => st
  | c :: cs => walkChildren (walkNode st c) cs

end

/-- From `web.go`: `findPrimaryContentNode` (a nil document yields nil;
otherwise first `article`, else first `main`, else `body`, else the
document itself). -/
def findPrimaryContentNode (doc : Option html.Node) : Option html.Node :=
  match doc with
  | none => none
  | some d =>
    let st := walkNode ⟨none, none, none⟩ d
    match st.article with
    | some a => some a
    | none =>
      match st.mainNode with
      | some m => some m
      | none =>
        match st.body with
        | some b => some b
        | none => some d

/-- From `web.go`: `estimateReadingTimeSeconds`, returning
`(seconds, words)`. -/
def estimateReadingTimeSeconds (doc : Option html.Node) : Nat × Nat :=
  let root := findPrimaryContentNode doc
  let words := countWords root
  if words = 0 then (0, 0)
  else (((words + readingWordsPerMinute - 1) / readingWordsPerMinute) * 60, words)

end enricher

namespace sha256

/-- 2^32, the word modulus. -/
def M : Nat := 4294967296

/-- Right rotation of a 32-bit word. -/
def rotr (x n : Nat) : Nat := (x / 2 ^ n + (x % 2 ^ n) * 2 ^ (32 - n)) % M

/-- Right shift of a 32-bit word. -/
def shr (x n : Nat) : Nat := x / 2 ^ n

/-- SHA-256 `Ch`. -/
def ch (x y z : Nat) : Nat := (x &&& y) ^^^ ((x ^^^ 4294967295) &&& z)

/-- SHA-256 `Maj`. -/
def maj (x y z : Nat) : Nat := (x &&& y) ^^^ (x &&& z) ^^^ (y &&& z)

/-- SHA-256 `Σ0`. -/
def bigSigma0 (x : Nat) : Nat := rotr x 2 ^^^ rotr x 13 ^^^ rotr x 22

/-- SHA-256 `Σ1`. -/
def bigSigma1 (x : Nat) : Nat := rotr x 6 ^^^ rotr x 11 ^^^ rotr x 25

/-- SHA-256 `σ0`. -/
def smallSigma0 (x : Nat) : Nat := rotr x 7 ^^^ rotr x 18 ^^^ shr x 3

/-- SHA-256 `σ1`. -/
def smallSigma1 (x : Nat) : Nat := rotr x 17 ^^^ rotr x 19 ^^^ shr x 10

/-- The 64 SHA-256 round constants. -/
def kConstants : List Nat :=
  [1116352408, 1899447441, 3049323471, 3921009573, 961987163,
   1508970993, 2453635748, 2870763221, 3624381080, 310598401,
   607225278, 1426881987, 1925078388, 2162078206, 2614888103,
   3248222580, 3835390401, 4022224774, 264347078, 604807628,
   770255983, 1249150122, 1555081692, 1996064986, 2554220882,
   2821834349, 2952996808, 3210313671, 3336571891, 3584528711,
   113926993, 338241895, 666307205, 773529912, 1294757372,
   1396182291, 1695183700, 1986661051, 2177026350, 2456956037,
   2730485921, 2820302411, 3259730800, 3345764771, 3516065817,
   3600352804, 4094571909, 275423344, 430227734, 506948616,
   659060556, 883997877, 958139571, 1322822218, 1537002063,
   1747873779, 1955562222, 2024104815, 2227730452, 2361852424,
   2428436474, 2756734187, 3204031479, 3329325298]

/-- The initial hash words. -/
def hInit : List Nat :=
  [1779033703, 3144134277, 1013904242, 2773480762, 1359893119,
   2600822924, 528734635, 1541459225]

/-- Big-endian byte encoding of `n` into `k` bytes. -/
def toBytesBE : Nat → Nat → List Nat
  | 0, _ => []
  | k + 1, n => toBytesBE k (n / 256) ++ [n % 256]

/-- SHA-256 padding: a `0x80` byte, zeros to 56 mod 64, and the bit
length as eight big-endian bytes. -/
def padMessage (msg : Bytes) : Bytes :=
  msg ++ [128] ++ List.replicate ((119 - msg.length % 64) % 64) 0 ++ toBytesBE 8 (msg.length * 8)

/-- Splits into 64-byte blocks. -/
def chunksOf64 (l : Bytes) : List Bytes :=
  if h : l = [] then []
  else
    have : (l.drop 64).length < l.length := by
      have hp : 0 < l.length := List.length_pos.mpr h
      simp only [List.length_drop]
      omega
    l.take 64 :: chunksOf64 (l.drop 64)
termination_by l.length

/-- The 16 big-endian message words of one block. -/
def words16 : Bytes → List Nat
  | b0 :: b1 :: b2 :: b3 :: rest =>
    (b0 * 16777216 + b1 * 65536 + b2 * 256 + b3) :: words16 rest
  | _ => []

/-- Extends the message schedule to 64 words. -/
def extendSchedule (w : List Nat) : List Nat :=
  if h : w.length ≥ 64 then w
  else
    extendSchedule (w ++
      [(smallSigma1 (w.getD (w.length - 2) 0) + w.getD (w.length - 7) 0 +
        smallSigma0 (w.getD (w.length - 15) 0) + w.getD (w.length - 16) 0) % M])
termination_by 64 - w.length
decreasing_by simp only [List.length_append, List.length_cons, List.length_nil]; omega

/-- One compression round: `wk` is the pair of schedule word and round
constant. -/
def compressRound (st : List Nat) (wk : Nat × Nat) : List Nat :=
  match st with
  | [a, b, c, d, e, f, g, h] =>
    let t1 := (h + bigSigma1 e + ch e f g + wk.1 + wk.2) % M
    let t2 := (bigSigma0 a + maj a b c) % M
    [(t1 + t2) % M, a, b, c, (d + t1) % M, e, f, g]
  | _ => st

/-- Processes one 64-byte block. -/
def processChunk (hs : List Nat) (chunk : Bytes) : List Nat :=
  let w := extendSchedule (words16 chunk)
  let final := (w.zip kConstants).foldl compressRound hs
  (hs.zip final).map (fun p => (p.1 + p.2) % M)

/-- SHA-256 digest (32 bytes) of a byte string. -/
def sha256Bytes (msg : Bytes) : Bytes :=
  ((chunksOf64 (padMessage msg)).foldl processChunk hInit).foldr
    (fun h acc => toBytesBE 4 h ++ acc) []

/-- Lowercase hex digit byte. -/
def hexLowerDigit (n : Nat) : Nat := if n < 10 then 48 + n else 87 + n

/-- Models `encoding/hex.EncodeToString` (lowercase). -/
def hexEncode (b : Bytes) : Bytes :=
  b.foldr (fun c r => hexLowerDigit (c / 16) :: hexLowerDigit (c % 16) :: r) []

end sha256

namespace model

/-- From `internal/model/entry.go`: `ProcessingStatus`. -/
inductive ProcessingStatus
  | pending
  | processing
  | ok
  | failed
  | skipped
  deriving DecidableEq, Repr

/-- From `internal/model/entry.go`: `SourceType`. -/
inductive SourceType
  | youtube
  | podcast
  | article
  | doc
  | other
  deriving DecidableEq, Repr

/-- From `internal/model/entry.go`: the `Entry` fields the pipeline reads
and writes (identifiers are opaque; timestamps are abstract instants). -/
structure Entry where
  id : Nat
  sourceURL : String
  canonicalURL : Option String := none
  title : Option String := none
  description : Option String := none
  tag : Option String := none
  sourceType : SourceType := .other
  enrichmentStatus : ProcessingStatus := .pending
  enrichmentError : Option String := none
  enrichedAt : Option Nat := none
  updatedAt : Nat := 0
  summaryText : Option String := none
  summaryStatus : ProcessingStatus := .pending
  summaryError : Option String := none
  summaryProvider : Option String := none
  summaryModel : Option String := none
  summaryVersion : Option String := none
  summaryGeneratedAt : Option Nat := none
  deriving DecidableEq, Repr

/-- From `internal/model/entry.go`: `SummaryCache`. -/
structure SummaryCache where
  urlHash : String
  canonicalURL : String
  summaryText : String
  provider : String
  model : String
  version : String
  createdAt : Nat := 0
  deriving DecidableEq, Repr

end model

namespace repository

open model

/-- From `internal/repository/entry.go`: `SummaryResult`. -/
structure SummaryResult where
  text : String
  provider : String
  model : String
  version : String
  generatedAt : Nat
  deriving DecidableEq, Repr

/-- The row effect of `UpdateEnrichmentStatus`'s SQL: `SET
enrichment_status = $2, enrichment_error = $3, enriched_at = $4,
updated_at = NOW() WHERE id = $1`, with `enriched_at` set to the current
time exactly for the `ok`/`failed` statuses (the Go wrapper computes
that argument). -/
def updateEnrichmentStatusRow (id : Nat) (status : ProcessingStatus)
    (errMsg : Option String) (now : Nat) (e : Entry) : Entry :=
  if e.id = id then
    { e with
      enrichmentStatus := status
      enrichmentError := errMsg
      enrichedAt := if status = .ok ∨ status = .failed then some now else none
      updatedAt := now }
  else e

/-- From `internal/repository/entry.go`: `UpdateEnrichmentStatus`, as a
transformation of the entry table. -/
def updateEnrichmentStatus (db : List Entry) (id : Nat) (status : ProcessingStatus)
    (errMsg : Option String) (now : Nat) : List Entry :=
  db.map (updateEnrichmentStatusRow id status errMsg now)

/-- The row effect of `UpdateSummaryStatus`'s SQL: `SET summary_status =
$2, summary_error = $3, updated_at = NOW() WHERE id = $1`. -/
def updateSummaryStatusRow (id : Nat) (status : ProcessingStatus)
    (errMsg : Option String) (now : Nat) (e : Entry) : Entry :=
  if e.id = id then
    { e with summaryStatus := status, summaryError := errMsg, updatedAt := now }
  else e

/-- From `internal/repository/entry.go`: `UpdateSummaryStatus`. -/
def updateSummaryStatus (db : List Entry) (id : Nat) (status : ProcessingStatus)
    (errMsg : Option String) (now : Nat) : List Entry :=
  db.map (updateSummaryStatusRow id status errMsg now)

/-- The row effect of `UpdateSummaryResult`'s SQL: `SET summary_text =
$2, summary_provider = $3, summary_model = $4, summary_version = $5,
summary_status = 'ok', summary_error = NULL, summary_generated_at = $6,
updated_at = NOW() WHERE id = $1`. -/
def updateSummaryResultRow (id : Nat) (result : SummaryResult) (now : Nat) (e : Entry) : Entry :=
  if e.id = id then
    { e with
      summaryText := some result.text
      summaryProvider := some result.provider
      summaryModel := some result.model
      summaryVersion := some result.version
      summaryStatus := .ok
      summaryError := none
      summaryGeneratedAt := some result.generatedAt
      updatedAt := now }
  else e

/-- From `internal/repository/entry.go`: `UpdateSummaryResult`. -/
def updateSummaryResult (db : List Entry) (id : Nat) (result : SummaryResult)
    (now : Nat) : List Entry :=
  db.map (updateSummaryResultRow id result now)

/-- First entry with the given id (how a keyed row read observes the
table). -/
def entryById (db : List Entry) (id : Nat) : Option Entry :=
  db.find? (fun e => e.id = id)

end repository

namespace worker

open model repository

/-- From `internal/worker/worker.go`: `hashURL` — lowercase hex of the
SHA-256 digest of the URL's UTF-8 bytes. -/
def hashURL (u : String) : String :=
  String.mk ((sha256.hexEncode (sha256.sha256Bytes (bs u))).map Char.ofNat)

/-- From `internal/summarizer`: `Input`. -/
structure SummarizerInput where
  sourceType : SourceType
  url : String
  tag : String
  title : String := ""
  description : String := ""
  deriving DecidableEq, Repr

/-- The effects of processing one entry of a summarization batch: the
table after the step, whether `Summarizer.Summarize` was invoked, and
the cache write if any. -/
structure SummarizeStepOut where
  db : List Entry
  summarizerCalled : Bool
  cacheWrite : Option SummaryCache
  deriving DecidableEq, Repr

/-- The cache key URL of an entry: `canonicalURL := entry.SourceURL;
if entry.CanonicalURL != nil { canonicalURL = *entry.CanonicalURL }`. -/
def canonicalOf (entry : Entry) : String :=
  match entry.canonicalURL with
  | some c => c
  | none => entry.sourceURL

/-- From `internal/worker/worker.go`: the body of `processSummarization`'s
per-entry loop.  `cache` is the summary-cache lookup by URL hash
(`GetByURLHash`, `none` both for a missing row and for a read error,
which the code treats as a miss) and `summarize` the configured
Summarizer.  Storage writes always succeed in this model (a failed write
only logs and skips in the source). -/
def processSummarizationEntry (cache : String → Option SummaryCache)
    (summarize : SummarizerInput → Except String SummaryResult) (now : Nat)
    (db : List Entry) (entry : Entry) : SummarizeStepOut :=
  if entry.title = none ∧ entry.description = none then
    ⟨updateSummaryStatus db entry.id .skipped none now, false, none⟩
  else
    let canonicalURL := canonicalOf entry
    let urlHash := hashURL canonicalURL
    match cache urlHash with
    | some cached =>
      ⟨updateSummaryResult db entry.id
          ⟨cached.summaryText, cached.provider, cached.model, cached.version, cached.createdAt⟩
          now,
        false, none⟩
    | none =>
      let db1 := updateSummaryStatus db entry.id .processing none now
      let input : SummarizerInput :=
        { sourceType := entry.sourceType
          url := entry.sourceURL
          tag := match entry.tag with | some t => t | none => ""
          title := match entry.title with | some t => t | none => ""
          description := match entry.description with | some d => d | none => "" }
      match summarize input with
      | .error errMsg => ⟨updateSummaryStatus db1 entry.id .failed (some errMsg) now, true, none⟩
      | .ok result =>
        ⟨updateSummaryResult db1 entry.id
            ⟨result.text, result.provider, result.model, result.version, result.generatedAt⟩
            now,
          true,
          some ⟨hashURL canonicalURL, canonicalURL, result.text, result.provider,
            result.model, result.version, 0⟩⟩

end worker

namespace enricher

/-- From `enricher.go`: `Result` — the metadata a strategy extracts
(the free-form `map[string]interface{}` metadata is embedded as a
string association list). -/
structure Result where
  canonicalURL : String := ""
  domain : String := ""
  sourceType : model.SourceType := .other
  title : String := ""
  description : String := ""
  publishedAt : Option Nat := none
  runtimeSeconds : Option Nat := none
  metadata : List (String × String) := []
  deriving DecidableEq, Repr

/-- From `enricher.go`: the `Enricher` interface, as a record of its four
methods (`Enrich`'s context parameter is dropped; its outcome is a
function of the URL). -/
structure Enricher where
  canHandle : String → Bool
  enrich : String → Except String Result
  name : String
  priority : Int

/-- From `enricher.go`: `Registry` (a non-nil fallback, as `NewRegistry`
enforces). -/
structure Registry where
  enrichers : List Enricher
  fallback : Enricher

/-- Insertion into a priority-sorted strategy list. -/
def insertByPriority (e : Enricher) : List Enricher → List Enricher
  | [] => [e]
  | x :: xs => if e.priority < x.priority then e :: x :: xs else x :: insertByPriority e xs

/-- From `enricher.go`: `Register` appends and re-sorts ascending by
priority (`sort.Slice` with `Priority()` as the key; the unstable Go
sort is modelled by a deterministic insertion sort). -/
def Registry.register (r : Registry) (e : Enricher) : Registry :=
  { r with enrichers := (r.enrichers ++ [e]).foldr insertByPriority [] }

/-- From `enricher.go` (the current version, whose doc comment states
that the first claiming enricher is authoritative): the routing loop of
`Registry.Enrich`, instrumented to also return the names of the
strategies whose `Enrich` ran. -/
def enrichGo (fallback : Enricher) (u : String) :
    List Enricher → Except String Result × List String
  | [] => (fallback.enrich u, [fallback.name])
  | e :: rest => if e.canHandle u then (e.enrich u, [e.name]) else enrichGo fallback u rest

/-- From `enricher.go`: `Registry.Enrich`. -/
def Registry.enrich (r : Registry) (u : String) : Except String Result :=
  (enrichGo r.fallback u r.enrichers).1

/-- The names of the strategies whose `Enrich` was invoked by
`Registry.Enrich` (always exactly one). -/
def Registry.enrichInvoked (r : Registry) (u : String) : List String :=
  (enrichGo r.fallback u r.enrichers).2

end enricher

/-! ## Registry routing -/

/-- Strategies that do not claim the URL are skipped without running. -/
theorem enrichGo_not_handled (fb : Learnd.enricher.Enricher) (u : String)
    (l₁ rest : List Learnd.enricher.Enricher)
    (h : ∀ e' ∈ l₁, e'.canHandle u = false) :
    Learnd.enricher.enrichGo fb u (l₁ ++ rest) = Learnd.enricher.enrichGo fb u rest := by
  induction l₁ with
  | nil => rfl
  | cons a as ih =>
    have ha : a.canHandle u = false := h a (by simp)
    simp only [List.cons_append, Learnd.enricher.enrichGo, ha]
    simpa using ih (fun e' he => h e' (by simp [he]))

/-- C1: `Registry.Enrich` returns the result of the first strategy (in
registered order) whose `CanHandle` is true; that strategy's error, if
any, is returned directly and it is the only strategy whose `Enrich`
runs; the fallback's `Enrich` runs only when no registered strategy
claims the URL. -/
theorem registry_first_claimant_authoritative :
    ∀ (l₁ l₂ : List Learnd.enricher.Enricher) (e fb : Learnd.enricher.Enricher) (u : String),
      (∀ e' ∈ l₁, e'.canHandle u = false) → e.canHandle u = true →
      (Learnd.enricher.Registry.enrich ⟨l₁ ++ e :: l₂, fb⟩ u = e.enrich u ∧
        Learnd.enricher.Registry.enrichInvoked ⟨l₁ ++ e :: l₂, fb⟩ u = [e.name] ∧
        ∀ msg, e.enrich u = .error msg →
          Learnd.enricher.Registry.enrich ⟨l₁ ++ e :: l₂, fb⟩ u = .error msg) ∧
      ∀ l : List Learnd.enricher.Enricher, (∀ e' ∈ l, e'.canHandle u = false) →
        Learnd.enricher.Registry.enrich ⟨l, fb⟩ u = fb.enrich u ∧
        Learnd.enricher.Registry.enrichInvoked ⟨l, fb⟩ u = [fb.name] := by
  intro l₁ l₂ e fb u h₁ he
  have hgo : Learnd.enricher.enrichGo fb u (l₁ ++ e :: l₂) = (e.enrich u, [e.name]) := by
    rw [enrichGo_not_handled fb u l₁ (e :: l₂) h₁]
    simp [Learnd.enricher.enrichGo, he]
  refine ⟨⟨?_, ?_, ?_⟩, ?_⟩
  · simp [Learnd.enricher.Registry.enrich, hgo]
  · simp [Learnd.enricher.Registry.enrichInvoked, hgo]
  · intro msg hmsg
    simp [Learnd.enricher.Registry.enrich, hgo, hmsg]
  · intro l hl
    have hgo2 : Learnd.enricher.enrichGo fb u (l ++ []) = Learnd.enricher.enrichGo fb u [] :=
      enrichGo_not_handled fb u l [] hl
    simp only [List.append_nil] at hgo2
    constructor
    · simp [Learnd.enricher.Registry.enrich, hgo2, Learnd.enricher.enrichGo]
    · simp [Learnd.enricher.Registry.enrichInvoked, hgo2, Learnd.enricher.enrichGo]

/-! ## The SSRF guard -/

set_option maxHeartbeats 2000000 in
/-- C2: `validateParsedURL` rejects a non-http(s) scheme, a missing host,
a `localhost` (or `*.localhost`) host, userinfo, a private/loopback/
link-local/multicast/unspecified literal-IP host, and a DNS host whose
resolution fails, is empty, or contains any such private address; an
otherwise well-formed URL with a public literal-IP host passes.  "Returns
an error" is stated as "is not `.ok ()`". -/
theorem validate_parsed_url_rules :
    ∀ (resolve : Bytes → Except Unit (List net.IP)) (u : url.URL),
      ((asciiLower u.scheme ≠ bs "http" ∧ asciiLower u.scheme ≠ bs "https") →
        enricher.validateParsedURL resolve (some u) ≠ .ok ()) ∧
      (u.host = [] → enricher.validateParsedURL resolve (some u) ≠ .ok ()) ∧
      (enricher.isLocalhost u.hostname = true →
        enricher.validateParsedURL resolve (some u) ≠ .ok ()) ∧
      (u.user.isSome = true → enricher.validateParsedURL resolve (some u) ≠ .ok ()) ∧
      (∀ ip, net.ParseIP u.hostname = some ip → enricher.isPrivateIP (some ip) = true →
        enricher.validateParsedURL resolve (some u) ≠ .ok ()) ∧
      (net.ParseIP u.hostname = none → resolve u.hostname = .error () →
        enricher.validateParsedURL resolve (some u) ≠ .ok ()) ∧
      (net.ParseIP u.hostname = none → resolve u.hostname = .ok [] →
        enricher.validateParsedURL resolve (some u) ≠ .ok ()) ∧
      (∀ (addrs : List net.IP) (a : net.IP), net.ParseIP u.hostname = none →
        resolve u.hostname = .ok addrs → a ∈ addrs → enricher.isPrivateIP (some a) = true →
        enricher.validateParsedURL resolve (some u) ≠ .ok ()) ∧
      (∀ ip, (asciiLower u.scheme = bs "http" ∨ asciiLower u.scheme = bs "https") →
        u.host ≠ [] → u.user = none → enricher.isLocalhost u.hostname = false →
        net.ParseIP u.hostname = some ip → enricher.isPrivateIP (some ip) = false →
        enricher.validateParsedURL resolve (some u) = .ok ()) := by
  intro resolve u
  refine ⟨?_, ?_, ?_, ?_, ?_, ?_, ?_, ?_, ?_⟩
  · intro h
    unfold enricher.validateParsedURL
    repeat' split
    all_goals simp_all
  · intro h
    unfold enricher.validateParsedURL
    repeat' split
    all_goals simp_all
  · intro h
    unfold enricher.validateParsedURL
    repeat' split
    all_goals simp_all
  · intro h
    unfold enricher.validateParsedURL
    repeat' split
    all_goals simp_all
  · intro ip hip h
    unfold enricher.validateParsedURL
    repeat' split
    all_goals simp_all
  · intro hip hres
    unfold enricher.validateParsedURL
    repeat' split
    all_goals simp_all
  · intro hip hres
    unfold enricher.validateParsedURL
    repeat' split
    all_goals simp_all
  · intro addrs a hip hres hmem h
    unfold enricher.validateParsedURL
    dsimp only
    rw [hip, hres]
    have hany : (addrs.any fun x => enricher.isPrivateIP (some x)) = true :=
      List.any_eq_true.mpr ⟨a, hmem, h⟩
    repeat' split
    all_goals simp_all
  · intro ip hsch hhost huser hlocal hip hpriv
    have hs : u.scheme ≠ [] := by
      intro h0
      rcases hsch with h | h <;> (rw [h0] at h; exact absurd h (by decide))
    have hhn : u.hostname ≠ [] := by
      intro h0
      rw [h0] at hip
      have hnil : net.ParseIP ([] : Bytes) = none := rfl
      rw [hnil] at hip
      exact Option.noConfusion hip
    have hsch2 : ¬(asciiLower u.scheme ≠ bs "http" ∧ asciiLower u.scheme ≠ bs "https") := by
      rcases hsch with h | h
      · intro hc; exact hc.1 h
      · intro hc; exact hc.2 h
    unfold enricher.validateParsedURL
    dsimp only
    rw [if_neg (by simp [hs, hhost]), if_neg hsch2, if_neg (by simp [huser]),
      if_neg hhn, if_neg (by simp [hlocal]), hip]
    dsimp only
    rw [if_neg (by simp [hpriv])]

/-- The parsed form of `http://127.0.0.1/`. -/
def u127 : url.URL := { scheme := bs "http", host := bs "127.0.0.1", path := bs "/" }

/-- The parsed form of `http://localhost/`. -/
def uLocalhost : url.URL := { scheme := bs "http", host := bs "localhost", path := bs "/" }

/-- The parsed form of `https://8.8.8.8/a`. -/
def uPublic : url.URL := { scheme := bs "https", host := bs "8.8.8.8", path := bs "/a" }

/-- Witness for C2: a loopback literal and `localhost` are rejected and a
public literal IP passes, independently of the resolver. -/
theorem validate_parsed_url_rules_witness :
    enricher.validateParsedURL (fun _ => .error ()) (some u127) ≠ .ok () ∧
    enricher.validateParsedURL (fun _ => .error ()) (some uLocalhost) ≠ .ok () ∧
    enricher.validateParsedURL (fun _ => .error ()) (some uPublic) = .ok () := by
  refine ⟨?_, ?_, ?_⟩
  · exact (validate_parsed_url_rules (fun _ => .error ()) u127).2.2.2.2.1
      (net.IP.v4 127 0 0 1) (by decide) (by decide)
  · exact (validate_parsed_url_rules (fun _ => .error ()) uLocalhost).2.2.1 (by decide)
  · exact (validate_parsed_url_rules (fun _ => .error ()) uPublic).2.2.2.2.2.2.2.2
      (net.IP.v4 8 8 8 8) (by decide) (by decide) (by decide) (by decide) (by decide) (by decide)

/-! ## Reading-time estimation -/

mutual

/-- Pre-order traversal of a node (the order `walk` visits nodes). -/
def preorder : html.Node → List html.Node
  | .mk t d c => .mk t d c :: preorderList c

/-- Pre-order traversal of a forest. -/
def preorderList : List html.Node → List html.Node
  | [] => []
  | c :: cs => preorder c ++ preorderList cs

end

/-- An `<article>` element. -/
def isArticleNode (n : html.Node) : Bool :=
  n.ntype == html.NodeType.elementNode && n.ndata == bs "article"

/-- A `<main>` element. -/
def isMainNode (n : html.Node) : Bool :=
  n.ntype == html.NodeType.elementNode && n.ndata == bs "main"

/-- A `<body>` element. -/
def isBodyNode (n : html.Node) : Bool :=
  n.ntype == html.NodeType.elementNode && n.ndata == bs "body"

/-- The last element of a cons is the last of the tail, else the head. -/
theorem getLast?_cons_or {α : Type} (a : α) (l : List α) :
    (a :: l).getLast? = l.getLast?.or (some a) := by
  cases l with
  | nil => rfl
  | cons b bs =>
    rw [List.getLast?_cons_cons]
    cases h : (b :: bs).getLast? with
    | some c => rfl
    | none => simp at h

/-- The intended content of a walk over `l` starting from state `st`:
first `article` and first `main` win, the last `body` wins. -/
def specWalk (st : enricher.WalkState) (l : List html.Node) : enricher.WalkState :=
  ⟨st.article.or (l.find? isArticleNode),
   st.mainNode.or (l.find? isMainNode),
   ((l.filter isBodyNode).getLast?).or st.body⟩

/-- `specWalk` over an empty list is the identity. -/
theorem specWalk_nil (st : enricher.WalkState) : specWalk st [] = st := by
  unfold specWalk
  simp

/-- `specWalk` composes along list append. -/
theorem specWalk_append (st : enricher.WalkState) (l₁ l₂ : List html.Node) :
    specWalk (specWalk st l₁) l₂ = specWalk st (l₁ ++ l₂) := by
  unfold specWalk
  simp [Option.or_assoc]

mutual

theorem walkNode_eq : ∀ (st : enricher.WalkState) (n : html.Node),
    enricher.walkNode st n = specWalk st (preorder n)
  | st, .mk t d c => by
    have hne1 : (bs "article" : Bytes) ≠ bs "main" := by decide
    have hne2 : (bs "article" : Bytes) ≠ bs "body" := by decide
    have hne3 : (bs "main" : Bytes) ≠ bs "article" := by decide
    have hne4 : (bs "main" : Bytes) ≠ bs "body" := by decide
    have hne5 : (bs "body" : Bytes) ≠ bs "article" := by decide
    have hne6 : (bs "body" : Bytes) ≠ bs "main" := by decide
    simp only [enricher.walkNode]
    rw [walkChildren_eq _ c]
    show specWalk _ (preorderList c) = specWalk st (preorder (.mk t d c))
    rw [show preorder (.mk t d c) = .mk t d c :: preorderList c from rfl]
    by_cases ht : t = html.NodeType.elementNode
    · subst ht
      by_cases ha : d = bs "article"
      · subst ha
        rw [if_pos rfl, if_pos rfl]
        cases hart : st.article with
        | none =>
          simp only [hart, Option.isNone_none, if_pos]
          unfold specWalk
          simp [isArticleNode, isMainNode, isBodyNode, html.Node.ntype, html.Node.ndata,
            List.filter_cons, getLast?_cons_or, Option.or_assoc, hart, hne1, hne2]
        | some a =>
          simp only [hart, Option.isNone_some]
          rw [if_neg (by simp)]
          unfold specWalk
          simp [isArticleNode, isMainNode, isBodyNode, html.Node.ntype, html.Node.ndata,
            List.filter_cons, getLast?_cons_or, Option.or_assoc, hart, hne1, hne2]
      · by_cases hm : d = bs "main"
        · subst hm
          rw [if_pos rfl, if_neg (by decide), if_pos rfl]
          cases hmn : st.mainNode with
          | none =>
            simp only [hmn, Option.isNone_none, if_pos]
            unfold specWalk
            simp [isArticleNode, isMainNode, isBodyNode, html.Node.ntype, html.Node.ndata,
              List.filter_cons, getLast?_cons_or, Option.or_assoc, hmn, hne3, hne4]
          | some m =>
            simp only [hmn, Option.isNone_some]
            rw [if_neg (by simp)]
            unfold specWalk
            simp [isArticleNode, isMainNode, isBodyNode, html.Node.ntype, html.Node.ndata,
              List.filter_cons, getLast?_cons_or, Option.or_assoc, hmn, hne3, hne4]
        · by_cases hb : d = bs "body"
          · subst hb
            rw [if_pos rfl, if_neg (by decide), if_neg (by decide), if_pos rfl]
            unfold specWalk
            simp [isArticleNode, isMainNode, isBodyNode, html.Node.ntype, html.Node.ndata,
              List.filter_cons, getLast?_cons_or, Option.or_assoc, hne5, hne6]
          · rw [if_pos rfl, if_neg ha, if_neg hm, if_neg hb]
            unfold specWalk
            simp [isArticleNode, isMainNode, isBodyNode, html.Node.ntype, html.Node.ndata,
              List.filter_cons, getLast?_cons_or, Option.or_assoc, ha, hm, hb]
    · rw [if_neg ht]
      unfold specWalk
      simp [isArticleNode, isMainNode, isBodyNode, html.Node.ntype, html.Node.ndata,
        List.filter_cons, getLast?_cons_or, Option.or_assoc, ht]

theorem walkChildren_eq : ∀ (st : enricher.WalkState) (l : List html.Node),
    enricher.walkChildren st l = specWalk st (preorderList l)
  | st, [] => by
    rw [show enricher.walkChildren st [] = st from rfl, show preorderList [] = [] from rfl,
      specWalk_nil]
  | st, c :: cs => by
    rw [show enricher.walkChildren st (c :: cs) =
        enricher.walkChildren (enricher.walkNode st c) cs from rfl]
    rw [walkChildren_eq (enricher.walkNode st c) cs, walkNode_eq st c, specWalk_append]
    rfl

end

/-- The preferred content container of a document, stated through the
pre-order traversal: the first `<article>`, else the first `<main>`,
else the last `<body>`, else the document itself. -/
def primaryPick (doc : html.Node) : html.Node :=
  match (preorder doc).find? isArticleNode with
  | some a => a
  | none =>
    match (preorder doc).find? isMainNode with
    | some m => m
    | none =>
      match ((preorder doc).filter isBodyNode).getLast? with
      | some b => b
      | none => doc

/-- The `<article>` element holding `k` one-word text nodes. -/
def articleNode (k : Nat) : html.Node :=
  html.el "article" (List.replicate k (html.txt "word"))

/-- A document with `k` one-word text nodes inside an `<article>`, with
`<nav>` and `<script>` noise around it. -/
def articleDoc (k : Nat) : html.Node :=
  .mk .documentNode [] [html.el "html"
    [html.el "head" [html.el "style" [html.txt "body, a b c d e"]],
     html.el "body"
       [html.el "nav" [html.txt "home about contact"],
        articleNode k,
        html.el "script" [html.txt "var x = 1 + 2"]]]]

/-- `find?` skips a head on which the predicate is false. -/
theorem find?_cons_false {α : Type} (p : α → Bool) (a : α) (l : List α) (h : p a = false) :
    (a :: l).find? p = l.find? p :=
  List.find?_cons_of_neg l (by simp [h])

/-- The word sum over `k` one-word text nodes is `k`. -/
theorem countWordsChildren_replicate (k : Nat) :
    enricher.countWordsChildren (List.replicate k (html.txt "word")) false = k := by
  induction k with
  | zero => rfl
  | succ n ih =>
    rw [List.replicate_succ]
    rw [show enricher.countWordsChildren (html.txt "word" :: List.replicate n (html.txt "word"))
        false = enricher.countWordsRecursive (html.txt "word") false +
          enricher.countWordsChildren (List.replicate n (html.txt "word")) false from rfl]
    rw [ih, show enricher.countWordsRecursive (html.txt "word") false = 1 from rfl]
    omega

/-- The article element counts exactly its `k` words. -/
theorem countWords_articleNode (k : Nat) :
    enricher.countWords (some (articleNode k)) = k := by
  show enricher.countWordsRecursive (articleNode k) false = k
  rw [show enricher.countWordsRecursive (articleNode k) false =
      enricher.countWordsChildren (List.replicate k (html.txt "word")) false from rfl]
  exact countWordsChildren_replicate k

/-- The preferred container of `articleDoc k` is its `<article>`. -/
theorem primaryPick_articleDoc (k : Nat) :
    primaryPick (articleDoc k) = articleNode k := by
  have hfind : (preorder (articleDoc k)).find? isArticleNode = some (articleNode k) := by
    simp only [articleDoc, articleNode, html.el, html.txt, preorder, preorderList,
      List.cons_append, List.nil_append, List.append_nil]
    rw [find?_cons_false _ _ _ rfl, find?_cons_false _ _ _ rfl, find?_cons_false _ _ _ rfl,
      find?_cons_false _ _ _ rfl, find?_cons_false _ _ _ rfl, find?_cons_false _ _ _ rfl,
      find?_cons_false _ _ _ rfl, find?_cons_false _ _ _ rfl,
      List.find?_cons_of_pos _ rfl]
  unfold primaryPick
  rw [hfind]

/-- C9: the reading-time estimate counts words under the preferred
content container — the pre-order-first `<article>`, else the first
`<main>`, else the last `<body>`, else the whole document — excludes
`script`/`style`/`noscript`/`svg`/`canvas`/`head` elements and
`nav`/`footer`/`aside` subtrees entirely, and returns
`ceil(words/200) * 60` seconds: 200 words yield 60 seconds and 201 words
yield 120 seconds. -/
theorem reading_time_estimate_spec :
    (∀ doc : html.Node,
      enricher.findPrimaryContentNode (some doc) = some (primaryPick doc)) ∧
    (∀ doc : html.Node,
      enricher.estimateReadingTimeSeconds (some doc) =
        (if enricher.countWords (some (primaryPick doc)) = 0 then (0, 0)
         else
           (((enricher.countWords (some (primaryPick doc)) + enricher.readingWordsPerMinute - 1) /
               enricher.readingWordsPerMinute) * 60,
             enricher.countWords (some (primaryPick doc))))) ∧
    (∀ (d : Bytes) (cs : List html.Node) (b : Bool),
      d = bs "script" ∨ d = bs "style" ∨ d = bs "noscript" ∨ d = bs "svg" ∨
        d = bs "canvas" ∨ d = bs "head" →
      enricher.countWordsRecursive (.mk .elementNode d cs) b = 0) ∧
    (∀ (d : Bytes) (cs : List html.Node) (b : Bool),
      d = bs "nav" ∨ d = bs "footer" ∨ d = bs "aside" →
      enricher.countWordsRecursive (.mk .elementNode d cs) b = 0) ∧
    enricher.estimateReadingTimeSeconds (some (articleDoc 200)) = (60, 200) ∧
    enricher.estimateReadingTimeSeconds (some (articleDoc 201)) = (120, 201) := by
  have hmain : ∀ doc : html.Node,
      enricher.findPrimaryContentNode (some doc) = some (primaryPick doc) := by
    intro doc
    unfold enricher.findPrimaryContentNode primaryPick
    dsimp only
    rw [walkNode_eq]
    unfold specWalk
    simp only [Option.none_or, Option.or_none]
    rcases hA : List.find? isArticleNode (preorder doc) with _ | a
    · rcases hM : List.find? isMainNode (preorder doc) with _ | m
      · rcases hB : (List.filter isBodyNode (preorder doc)).getLast? with _ | b
        · simp [hA, hM, hB]
        · simp [hA, hM, hB]
      · simp [hA, hM]
    · simp [hA]
  have hform : ∀ doc : html.Node,
      enricher.estimateReadingTimeSeconds (some doc) =
        (if enricher.countWords (some (primaryPick doc)) = 0 then (0, 0)
         else
           (((enricher.countWords (some (primaryPick doc)) + enricher.readingWordsPerMinute - 1) /
               enricher.readingWordsPerMinute) * 60,
             enricher.countWords (some (primaryPick doc)))) := by
    intro doc
    unfold enricher.estimateReadingTimeSeconds
    rw [hmain doc]
  have hconcrete : ∀ k : Nat, k ≠ 0 →
      enricher.estimateReadingTimeSeconds (some (articleDoc k)) =
        (((k + 199) / 200) * 60, k) := by
    intro k hk
    rw [hform (articleDoc k), primaryPick_articleDoc k, countWords_articleNode k, if_neg hk]
    rfl
  refine ⟨hmain, hform, ?_, ?_, ?_, ?_⟩
  · intro d cs b hd
    rcases hd with h | h | h | h | h | h <;> subst h <;> rfl
  · intro d cs b hd
    rcases hd with h | h | h <;> subst h <;> rfl
  · rw [hconcrete 200 (by decide)]
  · rw [hconcrete 201 (by decide)]

/-- Witness for C9: a concrete script element counts zero words, and the
200-word article document resolves to its `<article>` container. -/
theorem reading_time_estimate_spec_witness :
    enricher.countWordsRecursive (.mk .elementNode (bs "script")
        [html.txt "ignored words here"]) false = 0 ∧
    enricher.findPrimaryContentNode (some (articleDoc 200)) =
      some (primaryPick (articleDoc 200)) := by
  exact ⟨reading_time_estimate_spec.2.2.1 (bs "script") [html.txt "ignored words here"] false
      (Or.inl rfl),
    reading_time_estimate_spec.1 (articleDoc 200)⟩

/-! ## Description truncation -/

/-- A non-negative `lastIndexOfSub` result points at a full occurrence:
the index plus the pattern length fits inside the string. -/
theorem lastIndexOfSub_bound (s sub : Bytes) (h0 : 0 ≤ lastIndexOfSub s sub) :
    (lastIndexOfSub s sub).toNat + sub.length ≤ s.length := by
  unfold lastIndexOfSub at h0 ⊢
  cases hl : ((List.range (s.length + 1)).filter
      (fun i => sub.isPrefixOf (s.drop i))).getLast? with
  | none =>
    rw [hl] at h0
    exact absurd h0 (by decide)
  | some i =>
    have hmem := List.mem_of_getLast?_eq_some hl
    have hsplit := List.mem_filter.mp hmem
    have hpref : sub <+: s.drop i := by
      have := hsplit.2
      simpa [List.isPrefixOf_iff_prefix] using this
    have hlen : sub.length ≤ (s.drop i).length := hpref.length_le
    simp only [List.length_drop] at hlen
    have hi : i < s.length + 1 := List.mem_range.mp hsplit.1
    show ((i : Int)).toNat + sub.length ≤ s.length
    simp only [Int.toNat_ofNat]
    omega

/-- C8 (amended): `truncateDescription` returns at most 503 bytes: an
input of at most 500 bytes is returned unchanged; a longer input with a
`". "` boundary inside its first 500 bytes past index 200 is cut to the
prefix ending at the last such boundary (at most 500 bytes); otherwise
the first 500 bytes are kept with `"..."` appended (503 bytes). -/
theorem truncate_description_bounds :
    ∀ desc : Bytes,
      (enricher.truncateDescription desc).length ≤ 503 ∧
      (desc.length ≤ 500 → enricher.truncateDescription desc = desc) ∧
      (desc.length > 500 → lastIndexOfSub (desc.take 500) (bs ". ") > 200 →
        enricher.truncateDescription desc =
          desc.take ((lastIndexOfSub (desc.take 500) (bs ". ")).toNat + 1) ∧
        (enricher.truncateDescription desc).length ≤ 500) ∧
      (desc.length > 500 → ¬ lastIndexOfSub (desc.take 500) (bs ". ") > 200 →
        enricher.truncateDescription desc = desc.take 500 ++ bs "...") := by
  intro desc
  by_cases hlen : desc.length > 500
  · by_cases hidx : lastIndexOfSub (desc.take 500) (bs ". ") > 200
    · have heq : enricher.truncateDescription desc =
          desc.take ((lastIndexOfSub (desc.take 500) (bs ". ")).toNat + 1) := by
        unfold enricher.truncateDescription
        rw [if_pos hlen, if_pos hidx]
      have hb := lastIndexOfSub_bound (desc.take 500) (bs ". ") (by omega)
      have hsub : (bs ". ").length = 2 := rfl
      have htk : (desc.take 500).length = 500 := by
        simp only [List.length_take]
        omega
      rw [hsub, htk] at hb
      have hle : (enricher.truncateDescription desc).length ≤ 500 := by
        rw [heq]
        simp only [List.length_take]
        omega
      refine ⟨by omega, by omega, fun _ _ => ⟨heq, hle⟩, fun _ h2 => absurd hidx h2⟩
    · have heq : enricher.truncateDescription desc = desc.take 500 ++ bs "..." := by
        unfold enricher.truncateDescription
        rw [if_pos hlen, if_neg hidx]
      have hl3 : (enricher.truncateDescription desc).length = 503 := by
        rw [heq]
        simp only [List.length_append, List.length_take]
        have : (bs "...").length = 3 := rfl
        omega
      exact ⟨by omega, by omega, fun _ h2 => absurd h2 hidx, fun _ _ => heq⟩
  · have heq : enricher.truncateDescription desc = desc := by
      unfold enricher.truncateDescription
      rw [if_neg hlen]
    refine ⟨by rw [heq]; omega, fun _ => heq, fun h _ => absurd h hlen, fun h _ => absurd h hlen⟩

/-- A 501-byte description whose only sentence boundary sits at index
300. -/
def descWithBoundary : Bytes := List.replicate 300 97 ++ bs ". " ++ List.replicate 199 98

/-- Witness for C8 (amended): the concrete 501-byte input is cut at its
last sentence boundary, to 301 bytes. -/
theorem truncate_description_bounds_witness :
    enricher.truncateDescription descWithBoundary = descWithBoundary.take 301 ∧
    (enricher.truncateDescription descWithBoundary).length ≤ 500 := by
  have h := (truncate_description_bounds descWithBoundary).2.2.1 (by decide) (by decide)
  have hidx : (lastIndexOfSub (descWithBoundary.take 500) (bs ". ")).toNat + 1 = 301 := by decide
  exact ⟨by rw [h.1, hidx], h.2⟩

/-- C8 counterexample: a 501-byte description with no sentence boundary
is truncated to 503 bytes — more than the 500 characters the claim
allows. -/
theorem truncate_description_counterexample :
    (enricher.truncateDescription (List.replicate 501 97)).length = 503 ∧
    ¬ (enricher.truncateDescription (List.replicate 501 97)).length ≤ 500 := by
  constructor
  · decide
  · decide

/-! ## Storage updates and the summarization step -/

/-- A row function that keeps ids fixed commutes with the keyed row
read. -/
theorem entryById_map_row (f : model.Entry → model.Entry)
    (hf : ∀ e, (f e).id = e.id) (db : List model.Entry) (id : Nat) :
    repository.entryById (db.map f) id = (repository.entryById db id).map f := by
  unfold repository.entryById
  rw [List.find?_map]
  have hcomp : ((fun e : model.Entry => decide (e.id = id)) ∘ f) =
      (fun e : model.Entry => decide (e.id = id)) := by
    funext e
    simp [Function.comp, hf]
  rw [hcomp]

/-- `updateSummaryStatusRow` never changes the id. -/
theorem updateSummaryStatusRow_id (id : Nat) (status : model.ProcessingStatus)
    (errMsg : Option String) (now : Nat) (e : model.Entry) :
    (repository.updateSummaryStatusRow id status errMsg now e).id = e.id := by
  unfold repository.updateSummaryStatusRow
  split <;> rfl

/-- `updateSummaryResultRow` never changes the id. -/
theorem updateSummaryResultRow_id (id : Nat) (result : repository.SummaryResult)
    (now : Nat) (e : model.Entry) :
    (repository.updateSummaryResultRow id result now e).id = e.id := by
  unfold repository.updateSummaryResultRow
  split <;> rfl

/-- C5: an entry picked up by the summarization loop with neither title
nor description is marked `skipped` without invoking the Summarizer, and
its resulting status is `skipped`, never `ok`. -/
theorem summarization_skips_empty_entries :
    ∀ (cache : String → Option model.SummaryCache)
      (summarize : worker.SummarizerInput → Except String repository.SummaryResult)
      (now : Nat) (db : List model.Entry) (entry : model.Entry),
      entry.title = none → entry.description = none →
      (worker.processSummarizationEntry cache summarize now db entry).summarizerCalled = false ∧
      ∀ r, repository.entryById
          (worker.processSummarizationEntry cache summarize now db entry).db entry.id = some r →
        r.summaryStatus = .skipped ∧ r.summaryStatus ≠ .ok := by
  intro cache summarize now db entry ht hd
  have hstep : worker.processSummarizationEntry cache summarize now db entry =
      ⟨repository.updateSummaryStatus db entry.id .skipped none now, false, none⟩ := by
    unfold worker.processSummarizationEntry
    rw [if_pos ⟨ht, hd⟩]
  rw [hstep]
  refine ⟨rfl, ?_⟩
  intro r hr
  rw [repository.updateSummaryStatus,
    entryById_map_row _ (updateSummaryStatusRow_id entry.id .skipped none now) db entry.id] at hr
  obtain ⟨e₀, he₀, hre⟩ := Option.map_eq_some'.mp hr
  have hid : e₀.id = entry.id := by
    have hp := List.find?_some he₀
    simpa using hp
  rw [← hre]
  unfold repository.updateSummaryStatusRow
  rw [if_pos hid]
  exact ⟨rfl, by simp⟩

/-- An empty entry used by concrete checks of the summarization step. -/
def entryNoContent : model.Entry := { id := 1, sourceURL := "https://example.com/a" }

/-- Witness for C5: a concrete entry with no title and no description
ends with `summary_status = skipped` and the Summarizer not invoked. -/
theorem summarization_skips_empty_entries_witness :
    (worker.processSummarizationEntry (fun _ => none) (fun _ => .error "no summarizer") 3
        [entryNoContent] entryNoContent).summarizerCalled = false ∧
    (repository.entryById
        (worker.processSummarizationEntry (fun _ => none) (fun _ => .error "no summarizer") 3
          [entryNoContent] entryNoContent).db 1).map (fun r => r.summaryStatus)
      = some model.ProcessingStatus.skipped := by
  have h := summarization_skips_empty_entries (fun _ => none) (fun _ => .error "no summarizer") 3
    [entryNoContent] entryNoContent rfl rfl
  refine ⟨h.1, ?_⟩
  have hfind : repository.entryById
      (worker.processSummarizationEntry (fun _ => none) (fun _ => .error "no summarizer") 3
        [entryNoContent] entryNoContent).db 1
      = some { entryNoContent with summaryStatus := .skipped, updatedAt := 3 } := by rfl
  rw [hfind]
  exact congrArg some ((h.2 _ hfind).1)

/-- C4 (amended): for an entry with a title or a description, a summary
cache hit on the hash of its canonical-or-source URL short-circuits the
stage: the Summarizer is not invoked and the persisted summary fields
are copied from the cached entry. -/
theorem summarization_cache_hit_short_circuits :
    ∀ (cache : String → Option model.SummaryCache)
      (summarize : worker.SummarizerInput → Except String repository.SummaryResult)
      (now : Nat) (db : List model.Entry) (entry : model.Entry)
      (cached : model.SummaryCache),
      (entry.title ≠ none ∨ entry.description ≠ none) →
      cache (worker.hashURL (worker.canonicalOf entry)) = some cached →
      (worker.processSummarizationEntry cache summarize now db entry).summarizerCalled = false ∧
      ∀ r, repository.entryById
          (worker.processSummarizationEntry cache summarize now db entry).db entry.id = some r →
        r.summaryText = some cached.summaryText ∧
        r.summaryProvider = some cached.provider ∧
        r.summaryModel = some cached.model ∧
        r.summaryVersion = some cached.version ∧
        r.summaryGeneratedAt = some cached.createdAt ∧
        r.summaryStatus = .ok := by
  intro cache summarize now db entry cached hcontent hcache
  have hne : ¬(entry.title = none ∧ entry.description = none) := by
    intro hcon
    rcases hcontent with h | h
    · exact h hcon.1
    · exact h hcon.2
  have hstep : worker.processSummarizationEntry cache summarize now db entry =
      ⟨repository.updateSummaryResult db entry.id
          ⟨cached.summaryText, cached.provider, cached.model, cached.version, cached.createdAt⟩
          now,
        false, none⟩ := by
    unfold worker.processSummarizationEntry
    rw [if_neg hne]
    simp only [hcache]
  rw [hstep]
  refine ⟨rfl, ?_⟩
  intro r hr
  rw [repository.updateSummaryResult,
    entryById_map_row _ (updateSummaryResultRow_id entry.id _ now) db entry.id] at hr
  obtain ⟨e₀, he₀, hre⟩ := Option.map_eq_some'.mp hr
  have hid : e₀.id = entry.id := by
    have hp := List.find?_some he₀
    simpa using hp
  rw [← hre]
  unfold repository.updateSummaryResultRow
  rw [if_pos hid]
  exact ⟨rfl, rfl, rfl, rfl, rfl, rfl⟩

/-- A cached summary row used by concrete checks. -/
def cachedRow : model.SummaryCache :=
  { urlHash := "deadbeef", canonicalURL := "https://example.com/b",
    summaryText := "a cached summary", provider := "openai", model := "gpt-4o-mini",
    version := "v1", createdAt := 11 }

/-- An entry with a title, used by concrete checks. -/
def entryWithTitle : model.Entry :=
  { id := 2, sourceURL := "https://example.com/b", title := some "A Title" }

/-- Witness for C4: a concrete cache hit copies all cached fields and
does not call the Summarizer. -/
theorem summarization_cache_hit_short_circuits_witness :
    (worker.processSummarizationEntry (fun _ => some cachedRow) (fun _ => .error "down") 5
        [entryWithTitle] entryWithTitle).summarizerCalled = false ∧
    (repository.entryById
        (worker.processSummarizationEntry (fun _ => some cachedRow) (fun _ => .error "down") 5
          [entryWithTitle] entryWithTitle).db 2).map
        (fun r => (r.summaryText, r.summaryProvider, r.summaryModel, r.summaryVersion,
          r.summaryGeneratedAt, r.summaryStatus))
      = some (some "a cached summary", some "openai", some "gpt-4o-mini", some "v1",
          some 11, model.ProcessingStatus.ok) := by
  have h := summarization_cache_hit_short_circuits (fun _ => some cachedRow)
    (fun _ => .error "down") 5 [entryWithTitle] entryWithTitle cachedRow
    (Or.inl (by simp [entryWithTitle])) rfl
  exact ⟨h.1, rfl⟩

/-- C4 counterexample: an entry with neither title nor description is
skipped before the cache is consulted, so although the cache holds an
entry for its URL hash, the persisted summary fields do not equal the
cached fields (the claim's field-equality conjunct fails). -/
theorem summarization_cache_hit_counterexample :
    (fun (_ : String) => some cachedRow) (worker.hashURL (worker.canonicalOf entryNoContent))
        = some cachedRow ∧
    (repository.entryById
        (worker.processSummarizationEntry (fun _ => some cachedRow) (fun _ => .error "down") 5
          [entryNoContent] entryNoContent).db 1).map (fun r => r.summaryText)
      = some none ∧
    (none : Option String) ≠ some cachedRow.summaryText := by
  refine ⟨rfl, rfl, by simp [cachedRow]⟩

/-- C3 (amended): the pipeline's status mutations are single-record
updates keyed by id — rows with a different id are untouched — but they
are unconditional: the matching row receives the new status regardless
of its previous status (there is no `status = pending` guard). -/
theorem status_updates_keyed_by_id_unconditional :
    ∀ (db : List model.Entry) (id : Nat) (status : model.ProcessingStatus)
      (errMsg : Option String) (now : Nat),
      (repository.updateEnrichmentStatus db id status errMsg now).length = db.length ∧
      (∀ (i : Nat) (e : model.Entry), db[i]? = some e → e.id ≠ id →
        (repository.updateEnrichmentStatus db id status errMsg now)[i]? = some e) ∧
      (∀ (i : Nat) (e : model.Entry), db[i]? = some e → e.id = id →
        (repository.updateEnrichmentStatus db id status errMsg now)[i]? = some
          { e with
            enrichmentStatus := status
            enrichmentError := errMsg
            enrichedAt := if status = .ok ∨ status = .failed then some now else none
            updatedAt := now }) ∧
      (∀ (i : Nat) (e : model.Entry), db[i]? = some e → e.id = id →
        (repository.updateSummaryStatus db id status errMsg now)[i]? = some
          { e with summaryStatus := status, summaryError := errMsg, updatedAt := now }) := by
  intro db id status errMsg now
  refine ⟨by simp [repository.updateEnrichmentStatus], ?_, ?_, ?_⟩
  · intro i e he hne
    simp only [repository.updateEnrichmentStatus, List.getElem?_map, he, Option.map_some']
    unfold repository.updateEnrichmentStatusRow
    rw [if_neg hne]
  · intro i e he hid
    simp only [repository.updateEnrichmentStatus, List.getElem?_map, he, Option.map_some']
    unfold repository.updateEnrichmentStatusRow
    rw [if_pos hid]
  · intro i e he hid
    simp only [repository.updateSummaryStatus, List.getElem?_map, he, Option.map_some']
    unfold repository.updateSummaryStatusRow
    rw [if_pos hid]

/-- An already-enriched entry used by concrete checks. -/
def entryEnrichedOk : model.Entry :=
  { id := 7, sourceURL := "https://example.com/c", enrichmentStatus := .ok }

/-- Witness for C3 (amended): concrete update touches exactly the row
with the given id. -/
theorem status_updates_keyed_by_id_unconditional_witness :
    (repository.updateEnrichmentStatus [entryNoContent, entryEnrichedOk] 7 .processing none 9)[0]?
        = some entryNoContent ∧
    ((repository.updateEnrichmentStatus [entryNoContent, entryEnrichedOk] 7 .processing none 9)[1]?).map
        (fun e => e.enrichmentStatus) = some model.ProcessingStatus.processing := by
  have h := status_updates_keyed_by_id_unconditional [entryNoContent, entryEnrichedOk] 7
    .processing none 9
  refine ⟨h.2.1 0 entryNoContent rfl (by simp [entryNoContent]), ?_⟩
  rw [h.2.2.1 1 entryEnrichedOk rfl rfl]
  rfl

/-- C3 counterexample: `UpdateEnrichmentStatus` marks a record as
`processing` although its status is `ok`, not `pending` — the update has
no `status = pending` condition, contradicting the claim that such a
transition applies only to still-pending records. -/
theorem status_update_not_conditional_counterexample :
    entryEnrichedOk.enrichmentStatus = .ok ∧
    (repository.updateEnrichmentStatus [entryEnrichedOk] 7 .processing none 9).map
        (fun e => e.enrichmentStatus) = [model.ProcessingStatus.processing] := by
  exact ⟨rfl, rfl⟩

/-- A YouTube-shaped stub strategy whose `Enrich` fails. -/
def ytStub : Learnd.enricher.Enricher :=
  ⟨fun _ => true, fun _ => .error "YouTube API error: 403", "youtube", 10⟩

/-- A catch-all web stub strategy. -/
def webStub : Learnd.enricher.Enricher :=
  ⟨fun _ => true, fun _ => .ok {}, "web", 100⟩

/-- Witness for C1: with `[youtube (priority 10), web (priority 100)]`
registered, a URL the failing YouTube stub claims returns the YouTube
error and runs no other strategy. -/
theorem registry_first_claimant_authoritative_witness :
    Learnd.enricher.Registry.enrich ⟨[ytStub, webStub], webStub⟩ "https://youtu.be/dQw4w9WgXcQ"
        = .error "YouTube API error: 403" ∧
    Learnd.enricher.Registry.enrichInvoked ⟨[ytStub, webStub], webStub⟩
        "https://youtu.be/dQw4w9WgXcQ" = ["youtube"] := by
  have h := registry_first_claimant_authoritative [] [webStub] ytStub webStub
    "https://youtu.be/dQw4w9WgXcQ" (by intro e' he'; simp at he') rfl
  exact ⟨h.1.1.trans rfl, h.1.2.1⟩

/-! ## URL normalization -/

/-- C7 (amended): the non-root path rewrite of `NormalizeURL` removes
every trailing slash, not just one: the root path stays `/`, an empty or
all-slash path becomes `/`, and otherwise the result is the input minus
all its trailing slashes and itself ends in no slash. -/
theorem normalize_path_trims_all_trailing_slashes :
    urlutil.normalizePath (bs "/") = bs "/" ∧
    urlutil.normalizePath [] = bs "/" ∧
    ∀ p : Bytes, p ≠ [] → p ≠ bs "/" →
      ∃ k : Nat, p = urlutil.normalizePath p ++ List.replicate k 47 ∧
        (urlutil.normalizePath p = bs "/" ∨
          (urlutil.normalizePath p).getLast? ≠ some 47) := by
  refine ⟨rfl, rfl, ?_⟩
  intro p hne hroot
  have hsplit : p.reverse.takeWhile (fun b => decide (b = 47)) ++
      p.reverse.dropWhile (fun b => decide (b = 47)) = p.reverse :=
    List.takeWhile_append_dropWhile (fun b => decide (b = 47)) p.reverse
  have hp : p = (p.reverse.dropWhile (fun b => decide (b = 47))).reverse ++
      (p.reverse.takeWhile (fun b => decide (b = 47))).reverse := by
    have h2 := congrArg List.reverse hsplit
    rw [List.reverse_append, List.reverse_reverse] at h2
    exact h2.symm
  have ht : (p.reverse.takeWhile (fun b => decide (b = 47))).reverse =
      List.replicate (p.reverse.takeWhile (fun b => decide (b = 47))).length 47 := by
    have hall : ∀ b ∈ (p.reverse.takeWhile (fun b => decide (b = 47))).reverse, b = 47 := by
      intro b hb
      rw [List.mem_reverse] at hb
      have := List.mem_takeWhile_imp hb
      simpa using this
    have := List.eq_replicate_of_mem hall
    simpa using this
  by_cases hq : (p.reverse.dropWhile (fun b => decide (b = 47))).reverse = []
  · have hres : urlutil.normalizePath p = bs "/" := by
      unfold urlutil.normalizePath
      rw [if_pos hroot]
      show (if (p.reverse.dropWhile (fun b => decide (b = 47))).reverse = [] then bs "/"
        else (p.reverse.dropWhile (fun b => decide (b = 47))).reverse) = bs "/"
      rw [if_pos hq]
    have hpall : p = List.replicate (p.reverse.takeWhile (fun b => decide (b = 47))).length 47 := by
      conv_lhs => rw [hp]
      rw [hq, List.nil_append, ht]
    have hlen : 1 ≤ (p.reverse.takeWhile (fun b => decide (b = 47))).length := by
      by_contra hcon
      have h0 : (p.reverse.takeWhile (fun b => decide (b = 47))).length = 0 := by omega
      rw [h0] at hpall
      exact hne (by simpa using hpall)
    refine ⟨(p.reverse.takeWhile (fun b => decide (b = 47))).length - 1, ?_, Or.inl hres⟩
    rw [hres]
    conv_lhs => rw [hpall]
    have : bs "/" = [47] := rfl
    rw [this]
    have hrep : List.replicate (p.reverse.takeWhile (fun b => decide (b = 47))).length 47 =
        47 :: List.replicate ((p.reverse.takeWhile (fun b => decide (b = 47))).length - 1) 47 := by
      cases hcase : (p.reverse.takeWhile (fun b => decide (b = 47))).length with
      | zero => omega
      | succ n => simp [List.replicate_succ]
    rw [hrep]
    rfl
  · have hres : urlutil.normalizePath p =
        (p.reverse.dropWhile (fun b => decide (b = 47))).reverse := by
      unfold urlutil.normalizePath
      rw [if_pos hroot]
      show (if (p.reverse.dropWhile (fun b => decide (b = 47))).reverse = [] then bs "/"
        else (p.reverse.dropWhile (fun b => decide (b = 47))).reverse) =
        (p.reverse.dropWhile (fun b => decide (b = 47))).reverse
      rw [if_neg hq]
    refine ⟨(p.reverse.takeWhile (fun b => decide (b = 47))).length, ?_, Or.inr ?_⟩
    · rw [hres, ← ht, ← hp]
    · rw [hres, List.getLast?_reverse]
      have hh := List.head?_dropWhile_not (fun b => decide (b = 47)) p.reverse
      cases hcase : (p.reverse.dropWhile (fun b => decide (b = 47))).head? with
      | none =>
        rw [List.head?_eq_none_iff] at hcase
        exact absurd (by simpa using congrArg List.reverse hcase) hq
      | some x =>
        rw [hcase] at hh
        simp only at hh
        intro hcon
        have : x = 47 := by injection hcon
        simp [this] at hh

/-- Witness for C7 (amended): the concrete path `/a//` loses both
trailing slashes. -/
theorem normalize_path_trims_witness :
    urlutil.normalizePath (bs "/a//") = bs "/a" ∧
    (urlutil.normalizePath (bs "/a//")).getLast? ≠ some 47 := by
  have h := normalize_path_trims_all_trailing_slashes.2.2 (bs "/a//") (by decide) (by decide)
  rcases h with ⟨k, hk, hd⟩
  exact ⟨by decide, hd.resolve_left (by decide)⟩

/-- C7 counterexample: a path with two trailing slashes loses both of
them, not one — `NormalizeURL` returns `.../a`, not the `.../a/` the
claim requires. -/
theorem normalize_url_trailing_slash_counterexample :
    urlutil.NormalizeURL (bs "https://example.com/a//") = .ok (bs "https://example.com/a") ∧
    (bs "https://example.com/a" : Bytes) ≠ bs "https://example.com/a/" := by
  exact ⟨rfl, by decide⟩

/-- C6: normalization is not idempotent.  A bracketed IPv6 host with no
port is rewritten without brackets (`parsed.Host = host`), and
re-normalizing the output misparses `::1` as host `:` with port `1`,
yielding a different string — the code drops the brackets the spec's
idempotence property relies on. -/
theorem normalize_url_not_idempotent :
    urlutil.NormalizeURL (bs "https://[::1]/x") = .ok (bs "https://::1/x") ∧
    urlutil.NormalizeURL (bs "https://::1/x") = .ok (bs "https://[:]:1/x") ∧
    (bs "https://[:]:1/x" : Bytes) ≠ bs "https://::1/x" := by
  exact ⟨rfl, rfl, by decide⟩

/-- C10: an empty path becomes `/`, so `https://example.com` and
`https://example.com/` normalize to the same string. -/
theorem normalize_url_empty_path_becomes_root :
    urlutil.normalizePath [] = bs "/" ∧
    urlutil.NormalizeURL (bs "https://example.com") = .ok (bs "https://example.com/") ∧
    urlutil.NormalizeURL (bs "https://example.com/") = .ok (bs "https://example.com/") ∧
    urlutil.NormalizeURL (bs "https://example.com") =
      urlutil.NormalizeURL (bs "https://example.com/") := by
  exact ⟨rfl, rfl, rfl, rfl⟩

end Learnd
